import Mathlib

/-!
Verification of the CherryRecorder chat-server registry, message history and
Places-proxy error translation, as a shallow embedding of the C++ sources
(ChatServer.cpp, ChatRoom.cpp, ChatSession.cpp, WebSocketSession.cpp,
MessageHistory.cpp, handlers/PlacesApiHandler.cpp).

Sessions are identified by natural numbers (one id per session object).
A weak pointer to a session is modelled by the id together with the `alive`
list of the server state: the weak pointer is expired exactly when the id is
not in `alive`.  `std::map` fields become association lists accessed only
through `alookup`.
-/

namespace CherryRecorder

/-- Association-list lookup, modelling `std::map::find`. -/
def alookup {κ β : Type} [BEq κ] (l : List (κ × β)) (k : κ) : Option β :=
  (l.find? (fun p => p.1 == k)).map (fun p => p.2)

/-- Association-list erase, modelling `std::map::erase`. -/
def aerase {κ β : Type} [BEq κ] (l : List (κ × β)) (k : κ) : List (κ × β) :=
  l.filter (fun p => !(p.1 == k))

/-- Association-list update, modelling `std::map::operator[]` assignment. -/
def aset {κ β : Type} [BEq κ] (l : List (κ × β)) (k : κ) (v : β) : List (κ × β) :=
  (k, v) :: aerase l k

/-- The mutable per-session fields of ChatSession / WebSocketSession:
`nickname_`, `remote_id_`, `current_room_`. -/
structure SessState where
  nickname : String
  remoteId : String
  currentRoom : String
deriving DecidableEq

/-- Default value for a session id that was never created. -/
def defaultSess : SessState := ⟨"", "", ""⟩

/-- The shared state of ChatServer: live session objects (`alive`), the
per-session fields, the `sessions_` set, the `nicknames_` map (weak targets)
and the `rooms_` map (member sets of weak pointers). -/
structure ServerState where
  alive : List Nat
  sess : List (Nat × SessState)
  sessions : List Nat
  nicknames : List (String × Nat)
  rooms : List (String × List Nat)
deriving DecidableEq

/-- Read the fields of a session object. -/
def getSess (st : ServerState) (s : Nat) : SessState :=
  (alookup st.sess s).getD defaultSess

/-- Overwrite the fields of a session object. -/
def setSess (st : ServerState) (s : Nat) (v : SessState) : ServerState :=
  { st with sess := aset st.sess s v }

/-- Lookup in the `nicknames_` map. -/
def lookupNick (st : ServerState) (n : String) : Option Nat :=
  alookup st.nicknames n

/-- Lookup in the `rooms_` map. -/
def lookupRoom (st : ServerState) (r : String) : Option (List Nat) :=
  alookup st.rooms r

/-- Member list of a room, empty when the room is absent. -/
def membersOf (st : ServerState) (r : String) : List Nat :=
  (lookupRoom st r).getD []

/-- Erase one key of the `nicknames_` map. -/
def eraseNickKey (st : ServerState) (n : String) : ServerState :=
  { st with nicknames := aerase st.nicknames n }

/-- Overwrite the member list of a room. -/
def setRoomMembers (st : ServerState) (r : String) (m : List Nat) : ServerState :=
  { st with rooms := aset st.rooms r m }

/-- Erase a room from the `rooms_` map. -/
def eraseRoom (st : ServerState) (r : String) : ServerState :=
  { st with rooms := aerase st.rooms r }

/-- Set the `current_room_` field of a session. -/
def setCurRoom (st : ServerState) (s : Nat) (r : String) : ServerState :=
  setSess st s { getSess st s with currentRoom := r }

/-- The whitespace class of `find_first_of(" \t\n\r\f\v")`. -/
def isWsChar (c : Char) : Bool :=
  c == ' ' || c == '\t' || c == '\n' || c == '\r' || c == '\x0c' || c == '\x0b'

/-- Whether a string contains a whitespace character. -/
def hasWsChar (s : String) : Bool :=
  s.data.any isWsChar

/-- Nickname validation of ChatServer::try_register_nickname_async. -/
def validNick (n : String) : Prop :=
  n ≠ "" ∧ hasWsChar n = false ∧ n.length ≤ 20 ∧ n ≠ "Server" ∧ n ≠ "system"

instance (n : String) : Decidable (validNick n) := by
  unfold validNick; infer_instance

/-- Room-name validation of ChatServer::join_room_async. -/
def validRoomName (r : String) : Prop :=
  r ≠ "" ∧ hasWsChar r = false ∧ r.length ≤ 30

instance (r : String) : Decidable (validRoomName r) := by
  unfold validRoomName; infer_instance

/-- Creation of a session object at accept time: `remote_id_` is the peer
address, `nickname_` is initialized to `remote_id_`, no current room. -/
def acceptOp (st : ServerState) (s : Nat) (rid : String) : ServerState :=
  { setSess st s ⟨rid, rid, ""⟩ with alive := s :: st.alive }

/-- ChatServer::join - insert the session into the `sessions_` set. -/
def joinServer (st : ServerState) (s : Nat) : ServerState :=
  if s ∈ st.sessions then st else { st with sessions := s :: st.sessions }

/-- The accept branch of ChatServer::try_register_nickname_impl: the old
nickname of the session is evicted when it exists, differs from the new
nickname and from the remote id, and still points at this session or at an
expired one.  The C++ dereferences the `find(old_nick)` result without an
end() check; the result `none` models that past-the-end dereference. -/
def registerAccept (st1 : ServerState) (nick : String) (s : Nat)
    (oldNick oldRemote : String) : Option (Bool × ServerState) :=
  if oldNick ≠ "" ∧ oldNick ≠ nick ∧ oldNick ≠ oldRemote then
    match lookupNick st1 oldNick with
    | none => none
    | some u =>
      let st2 := if u = s ∨ u ∉ st1.alive then eraseNickKey st1 oldNick else st1
      some (true, { st2 with nicknames := aset st2.nicknames nick s })
  else
    some (true, { st1 with nicknames := aset st1.nicknames nick s })

/-- ChatServer::try_register_nickname_impl.  The boolean is the success value
passed to the handler; `none` models the undefined past-the-end dereference
in the old-nickname eviction step. -/
def tryRegisterNicknameImpl (st : ServerState) (nick : String) (s : Nat) :
    Option (Bool × ServerState) :=
  if s ∈ st.alive then
    let oldNick := (getSess st s).nickname
    let oldRemote := (getSess st s).remoteId
    match lookupNick st nick with
    | none => registerAccept st nick s oldNick oldRemote
    | some t =>
      if t ∉ st.alive then
        registerAccept (eraseNickKey st nick) nick s oldNick oldRemote
      else if t = s then
        registerAccept st nick s oldNick oldRemote
      else
        some (false, st)
  else
    some (false, st)

/-- The full /nick flow: try_register_nickname_impl followed, on success, by
the session callback that updates the local `nickname_` field. -/
def registerNickname (st : ServerState) (nick : String) (s : Nat) :
    Option (Bool × ServerState) :=
  match tryRegisterNicknameImpl st nick s with
  | none => none
  | some (ok, st1) =>
    if ok then some (true, setSess st1 s { getSess st1 s with nickname := nick })
    else some (false, st1)

/-- ChatServer::unregister_nickname. -/
def unregisterNickname (st : ServerState) (n : String) : ServerState :=
  if n = "" then st else eraseNickKey st n

/-- ChatRoom::add_participant - set insert of the session. -/
def addParticipant (m : List Nat) (s : Nat) : List Nat :=
  if s ∈ m then m else m ++ [s]

/-- ChatRoom::remove_participant - erase_if removing the given participant
and every expired weak pointer. -/
def removeParticipant (alive m : List Nat) (s : Nat) : List Nat :=
  m.filter (fun t => !(t == s) && alive.contains t)

/-- ChatServer::leave_room (synchronous): fails only when the room is absent;
otherwise removes the participant, erases the room when it became empty and
clears the current_room field of the session. -/
def leaveRoomOp (st : ServerState) (room : String) (s : Nat) : Bool × ServerState :=
  match lookupRoom st room with
  | none => (false, st)
  | some m =>
    let m' := removeParticipant st.alive m s
    let st1 := if m' = [] then eraseRoom st room else setRoomMembers st room m'
    (true, setCurRoom st1 s "")

/-- ChatServer::leave_room_async: rejects before dispatch when the room name
is empty or differs from the current room of the session. -/
def leaveRoomAsync (st : ServerState) (room : String) (s : Nat) : Bool × ServerState :=
  if room = "" ∨ (getSess st s).currentRoom ≠ room then (false, st)
  else leaveRoomOp st room s

/-- ChatServer::join_room (synchronous): leaves the previous room first when
it differs from the target, creates the target room when absent, inserts the
session and sets its current_room.  It always reports success. -/
def joinRoomOp (st : ServerState) (room : String) (s : Nat) : Bool × ServerState :=
  let old := (getSess st s).currentRoom
  let st1 :=
    if old ≠ "" ∧ old ≠ room then
      match lookupRoom st old with
      | none => st
      | some m =>
        let m' := removeParticipant st.alive m s
        if m' = [] then eraseRoom st old else setRoomMembers st old m'
    else st
  let m2 := (lookupRoom st1 room).getD []
  let st2 := setRoomMembers st1 room (addParticipant m2 s)
  (true, setCurRoom st2 s room)

/-- ChatServer::join_room_async: validation then the synchronous join. -/
def joinRoomAsync (st : ServerState) (room : String) (s : Nat) : Bool × ServerState :=
  if validRoomName room then joinRoomOp st room s else (false, st)

/-- ChatServer::leave_all_rooms_impl - leave the current room when set. -/
def leaveAllRooms (st : ServerState) (s : Nat) : ServerState :=
  let cr := (getSess st s).currentRoom
  if cr = "" then st else (leaveRoomOp st cr s).2

/-- ChatServer::leave.  The boolean records whether the user-left notice was
broadcast: the session had to be present in `sessions_` and its nickname
captured at entry had to be non-empty and different from its remote id. -/
def leaveOp (st : ServerState) (s : Nat) : Bool × ServerState :=
  let nickname := (getSess st s).nickname
  let rid := (getSess st s).remoteId
  let st1 := leaveAllRooms st s
  let st2 := if nickname ≠ "" ∧ nickname ≠ rid then unregisterNickname st1 nickname else st1
  let brd : Bool := decide (s ∈ st2.sessions) && decide (nickname ≠ "") && decide (nickname ≠ rid)
  (brd, { st2 with sessions := st2.sessions.filter (fun t => !(t == s)) })

/-- Destruction of a session object (its weak pointers expire).  Only
possible once no shared pointer remains, in particular the object is no
longer in the `sessions_` set. -/
def destroyOp (st : ServerState) (s : Nat) : ServerState :=
  { st with alive := st.alive.filter (fun t => !(t == s)) }

/-- ChatServer::broadcast_impl - recipients are every session of the
`sessions_` set other than the sender; a `none` sender (system message)
excludes nobody. -/
def broadcastRecipients (st : ServerState) (sender : Option Nat) : List Nat :=
  st.sessions.filter (fun t => decide (some t ≠ sender))

/-- ChatRoom::broadcast - recipients are every member whose weak pointer
still locks, other than the sender. -/
def roomBroadcastRecipients (alive members : List Nat) (sender : Option Nat) : List Nat :=
  members.filter (fun t => alive.contains t && decide (some t ≠ sender))

/-- read_last_lines of MessageHistory.cpp: all lines when the limit is zero
or at least the number of lines, otherwise the last `limit` lines. -/
def readLastLines (lines : List String) (limit : Nat) : List String :=
  if limit = 0 ∨ lines.length ≤ limit then lines
  else lines.drop (lines.length - limit)

/-- A history stream: `none` when the file does not exist. -/
def loadHistoryStream (file : Option (List String)) (limit : Nat) : List String :=
  match file with
  | none => []
  | some lines => readLastLines lines limit

/-- Transcription of the specification sentence "the last N non-blank lines
of the stream in natural order, or all lines when N is zero", written from
the words of the spec for comparison with `readLastLines`. -/
def specLastNonBlankLines (lines : List String) (limit : Nat) : List String :=
  let nb := lines.filter (fun l => !(l == ""))
  if limit = 0 ∨ nb.length ≤ limit then nb else nb.drop (nb.length - limit)

/-- Minimal JSON values for the Places proxy bodies. -/
inductive JsonVal where
  | str (s : String)
  | num (n : Int)
  | obj (fields : List (String × JsonVal))

mutual

/-- Compact JSON serialization (boost::json::serialize). -/
def serializeJson : JsonVal → String
  | .str s => "\"" ++ s ++ "\""
  | .num n => toString n
  | .obj fs => "\x7b" ++ serializeFields fs ++ "\x7d"

/-- Serialize the field list of a JSON object. -/
def serializeFields : List (String × JsonVal) → String
  | [] => ""
  | (k, v) :: rest =>
    "\"" ++ k ++ "\":" ++ serializeJson v ++
      (if rest.isEmpty then "" else "," ++ serializeFields rest)

end

/-- Outcome of the upstream HTTPS call made by
PlacesApiHandler::requestGooglePlacesApi: either a transport failure
(resolve, connect, TLS, read), or a response with a status code, raw body
and the result of parsing the body as JSON. -/
inductive UpstreamOutcome where
  | transportError (reason : String)
  | response (status : Nat) (rawBody : String) (parsed : Option JsonVal)

/-- Result of requestGooglePlacesApi as seen by the handler: either the
special object carrying __error_status_code and __error_body, or a plain
JSON value. -/
inductive ApiResult where
  | errorMarker (status : Nat) (body : String)
  | value (v : JsonVal)

/-- PlacesApiHandler::requestGooglePlacesApi.  A transport error is caught
and turned into the plain object with a single "error" field (no status
marker).  A body that fails to parse yields the marker with the raw body
regardless of the status.  A parsed non-2xx response yields the marker with
the re-serialized body.  The projection of a successful search response to
the client shape is not modelled: the claims under verification concern only
the error paths, and the success branch returns the parsed value unchanged. -/
def requestGooglePlacesApi : UpstreamOutcome → ApiResult
  | .transportError reason => .value (.obj [("error", .str reason)])
  | .response status rawBody parsed =>
    match parsed with
    | none => .errorMarker status rawBody
    | some v =>
      if 200 ≤ status ∧ status < 300 then .value v
      else .errorMarker status (serializeJson v)

/-- PlacesApiHandler::createErrorResponse - the given error string is
wrapped into a JSON object under the key "error". -/
def createErrorResponse (status : Nat) (error : String) : Nat × String :=
  (status, serializeJson (.obj [("error", .str error)]))

/-- PlacesApiHandler::handleNearbySearch, from the upstream call onwards:
a result carrying the error marker becomes createErrorResponse of the stored
status and body; any other result is returned with status 200. -/
def handleNearbySearch (outcome : UpstreamOutcome) : Nat × String :=
  match requestGooglePlacesApi outcome with
  | .errorMarker status body => createErrorResponse status body
  | .value v => (200, serializeJson v)

/-- The five welcome messages passed to deliver by ChatSession::start, each
already carrying its line terminator. -/
def chatSessionWelcomeMsgs (rid : String) : List String :=
  [ "Welcome to the CherryRecorder Chat Server!\r\n"
  , "Your temporary ID is: " ++ rid ++ "\r\n"
  , "Please set your nickname using /nick <nickname>\r\n"
  , "Enter /help for a list of commands.\r\n"
  , "Enter /join <roomname> to join or create a room.\r\n" ]

/-- ChatSession::deliver appends one CRLF to every queued message. -/
def tcpDeliverFrame (msg : String) : String :=
  msg ++ "\r\n"

/-- The wire frames produced by the welcome banner of a TCP chat session. -/
def chatSessionWelcomeWire (rid : String) : List String :=
  (chatSessionWelcomeMsgs rid).map tcpDeliverFrame

/-- One registry step as the implementation allows it to be invoked.
Nickname registration only requires the session object to be alive (the
implementation checks nothing else), and a WebSocket client can invoke the
synchronous leave_room on an arbitrary room name. -/
inductive Step : ServerState → ServerState → Prop where
  | accept (st : ServerState) (s : Nat) (rid : String) (ha : s ∉ st.alive) :
      Step st (acceptOp st s rid)
  | joined (st : ServerState) (s : Nat) (ha : s ∈ st.alive)
      (hn : (getSess st s).nickname = (getSess st s).remoteId)
      (hc : (getSess st s).currentRoom = "") (hs : s ∉ st.sessions) :
      Step st (joinServer st s)
  | register (st : ServerState) (s : Nat) (nick : String) (ok : Bool) (st' : ServerState)
      (hv : validNick nick)
      (hr : registerNickname st nick s = some (ok, st')) :
      Step st st'
  | leave (st : ServerState) (s : Nat) (hs : s ∈ st.sessions) :
      Step st (leaveOp st s).2
  | joinRoom (st : ServerState) (s : Nat) (room : String) (hs : s ∈ st.sessions)
      (hv : validRoomName room) :
      Step st (joinRoomOp st room s).2
  | leaveRoomAny (st : ServerState) (s : Nat) (room : String) (hs : s ∈ st.sessions)
      (hne : room ≠ "") :
      Step st (leaveRoomOp st room s).2
  | destroy (st : ServerState) (s : Nat) (ha : s ∈ st.alive) (hs : s ∉ st.sessions) :
      Step st (destroyOp st s)

/-- One registry step under the disciplined session lifecycle: nickname
registration is only invoked by sessions still in the session set, and a
room is only left through leave_room_async, whose guard requires the room to
be the current room of the session. -/
inductive CleanStep : ServerState → ServerState → Prop where
  | accept (st : ServerState) (s : Nat) (rid : String) (ha : s ∉ st.alive) :
      CleanStep st (acceptOp st s rid)
  | joined (st : ServerState) (s : Nat) (ha : s ∈ st.alive)
      (hn : (getSess st s).nickname = (getSess st s).remoteId)
      (hc : (getSess st s).currentRoom = "") (hs : s ∉ st.sessions) :
      CleanStep st (joinServer st s)
  | register (st : ServerState) (s : Nat) (nick : String) (ok : Bool) (st' : ServerState)
      (hm : s ∈ st.sessions) (hv : validNick nick)
      (hr : registerNickname st nick s = some (ok, st')) :
      CleanStep st st'
  | leave (st : ServerState) (s : Nat) (hs : s ∈ st.sessions) :
      CleanStep st (leaveOp st s).2
  | joinRoom (st : ServerState) (s : Nat) (room : String) (hs : s ∈ st.sessions)
      (hv : validRoomName room) :
      CleanStep st (joinRoomOp st room s).2
  | leaveRoomCur (st : ServerState) (s : Nat) (room : String) (hs : s ∈ st.sessions)
      (hcur : (getSess st s).currentRoom = room) (hne : room ≠ "") :
      CleanStep st (leaveRoomOp st room s).2
  | destroy (st : ServerState) (s : Nat) (ha : s ∈ st.alive) (hs : s ∉ st.sessions) :
      CleanStep st (destroyOp st s)

/-- The empty initial server state. -/
def initState : ServerState := ⟨[], [], [], [], []⟩

/-- Reachability by the steps the implementation admits. -/
def Reachable (st : ServerState) : Prop :=
  Relation.ReflTransGen Step initState st

/-- Reachability under the disciplined session lifecycle. -/
def CleanReachable (st : ServerState) : Prop :=
  Relation.ReflTransGen CleanStep initState st

/-- The registry invariant maintained by the disciplined lifecycle. -/
structure Inv (st : ServerState) : Prop where
  sessAlive : ∀ s, s ∈ st.sessions → s ∈ st.alive
  nickOfSess : ∀ s, s ∈ st.sessions → (getSess st s).nickname ≠ (getSess st s).remoteId →
    lookupNick st ((getSess st s).nickname) = some s
  nickNE : ∀ s, s ∈ st.sessions →
    (getSess st s).nickname ≠ "" ∨ (getSess st s).nickname = (getSess st s).remoteId
  curRoomOut : ∀ s, s ∉ st.sessions → (getSess st s).currentRoom = ""
  curRoomMem : ∀ s, s ∈ st.sessions → (getSess st s).currentRoom ≠ "" →
    ∃ m, lookupRoom st ((getSess st s).currentRoom) = some m ∧ s ∈ m
  roomMem : ∀ r m s, lookupRoom st r = some m → s ∈ m →
    s ∈ st.sessions ∧ (getSess st s).currentRoom = r
  roomNE : ∀ r m, lookupRoom st r = some m → m ≠ []
  roomKey : lookupRoom st "" = none

/-- State reached after a registration attempt (identity when it fails or
hits the undefined dereference). -/
def regState (st : ServerState) (nick : String) (s : Nat) : ServerState :=
  match registerNickname st nick s with
  | some (_, st') => st'
  | none => st

/-- Remote id of the first trace session. -/
def rid1 : String := "r:1"

/-- Remote id of the second trace session. -/
def rid2 : String := "r:2"

/-- Session 0 accepted and registered with the server. -/
def c2a : ServerState := joinServer (acceptOp initState 0 rid1) 0

/-- Session 0 after registering its own remote id as its nickname. -/
def c2b : ServerState := regState c2a rid1 0

/-- Session 0 after then registering the nickname "foo": the stale entry
keyed by its remote id survives in the nickname index. -/
def c2c : ServerState := regState c2b "foo" 0

/-- The state after session 0 of `c2b` leaves. -/
def c3post : ServerState := (leaveOp c2b 0).2

/-- Session 0 of `c2a` after registering the nickname "alice". -/
def cXb : ServerState := regState c2a "alice" 0

/-- The state after session 0 of `cXb` leaves: the session object is still
alive, keeps its local nickname, but the index entry is gone. -/
def cXc : ServerState := (leaveOp cXb 0).2

/-- Session 1 accepted and registered. -/
def c4a : ServerState := joinServer (acceptOp initState 1 rid1) 1

/-- Session 1 in room "a". -/
def c4b : ServerState := (joinRoomOp c4a "a" 1).2

/-- Session 2 accepted and registered as well. -/
def c4c : ServerState := joinServer (acceptOp c4b 2 rid2) 2

/-- Session 2 in room "b", session 1 still in room "a". -/
def c4d : ServerState := (joinRoomOp c4c "b" 2).2

/-- Session 1 after invoking the synchronous leave_room on room "b", a room
it is not a member of: its current_room is cleared although it is still a
member of room "a". -/
def c4e : ServerState := (leaveRoomOp c4d "b" 1).2

/-- A state whose room "big" already holds 100 members, the default
capacity of the specification; session 100 is a fresh session. -/
def fullRoomState : ServerState :=
  ⟨[100], [(100, ⟨"u:1", "u:1", ""⟩)], [100], [], [("big", List.range 100)]⟩

/-- A small state used to witness the broadcast fan-out theorem. -/
def w1State : ServerState :=
  ⟨[1, 2, 3], [], [1, 2, 3], [], [("w", [1, 2])]⟩

theorem alookup_cons {κ β : Type} [BEq κ] (p : κ × β) (l : List (κ × β)) (k : κ) :
    alookup (p :: l) k = if p.1 == k then some p.2 else alookup l k := by
  by_cases h : p.1 == k
  · simp [alookup, List.find?, h]
  · simp only [Bool.not_eq_true] at h
    simp [alookup, List.find?, h]

theorem alookup_aerase_self {κ β : Type} [BEq κ] [LawfulBEq κ]
    (l : List (κ × β)) (k : κ) : alookup (aerase l k) k = none := by
  induction l with
  | nil => rfl
  | cons p l ih =>
    by_cases h : p.1 = k
    · simpa [aerase, h] using ih
    · simpa [aerase, alookup_cons, h] using ih

theorem alookup_aerase_ne {κ β : Type} [BEq κ] [LawfulBEq κ]
    (l : List (κ × β)) (k k0 : κ) (h : k ≠ k0) :
    alookup (aerase l k0) k = alookup l k := by
  induction l with
  | nil => rfl
  | cons p l ih =>
    by_cases hp : p.1 = k0
    · have hk : (p.1 == k) = false := by
        rw [beq_eq_false_iff_ne, hp]; exact Ne.symm h
      have he : aerase (p :: l) k0 = aerase l k0 := by simp [aerase, hp]
      rw [he, ih, alookup_cons, hk]; simp
    · have he : aerase (p :: l) k0 = p :: aerase l k0 := by simp [aerase, hp]
      rw [he, alookup_cons, alookup_cons, ih]

theorem alookup_aset_self {κ β : Type} [BEq κ] [LawfulBEq κ]
    (l : List (κ × β)) (k : κ) (v : β) : alookup (aset l k v) k = some v := by
  simp [aset, alookup_cons]

theorem alookup_aset_ne {κ β : Type} [BEq κ] [LawfulBEq κ]
    (l : List (κ × β)) (k k0 : κ) (v : β) (h : k ≠ k0) :
    alookup (aset l k0 v) k = alookup l k := by
  simp [aset, alookup_cons, Ne.symm h, alookup_aerase_ne l k k0 h]

theorem getSess_setSess_self (st : ServerState) (s : Nat) (v : SessState) :
    getSess (setSess st s v) s = v := by
  simp [getSess, setSess, alookup_aset_self]

theorem getSess_setSess_ne (st : ServerState) (s t : Nat) (v : SessState) (h : t ≠ s) :
    getSess (setSess st s v) t = getSess st t := by
  simp [getSess, setSess, alookup_aset_ne st.sess t s v h]

theorem mem_addParticipant (m : List Nat) (s t : Nat) :
    t ∈ addParticipant m s ↔ t ∈ m ∨ t = s := by
  by_cases h : s ∈ m
  · simp only [addParticipant, if_pos h]
    exact ⟨Or.inl, fun hc => hc.elim id (fun ht => ht ▸ h)⟩
  · simp [addParticipant, if_neg h]

theorem mem_removeParticipant (alive m : List Nat) (s t : Nat) :
    t ∈ removeParticipant alive m s ↔ t ∈ m ∧ t ≠ s ∧ t ∈ alive := by
  simp only [removeParticipant, List.mem_filter, Bool.and_eq_true, Bool.not_eq_true',
    beq_eq_false_iff_ne, ne_eq, List.elem_iff]

theorem lookupRoom_setRoomMembers_self (st : ServerState) (r : String) (m : List Nat) :
    lookupRoom (setRoomMembers st r m) r = some m :=
  alookup_aset_self st.rooms r m

theorem lookupRoom_setRoomMembers_ne (st : ServerState) (r r0 : String) (m : List Nat)
    (h : r ≠ r0) : lookupRoom (setRoomMembers st r0 m) r = lookupRoom st r :=
  alookup_aset_ne st.rooms r r0 m h

theorem lookupRoom_eraseRoom_self (st : ServerState) (r : String) :
    lookupRoom (eraseRoom st r) r = none :=
  alookup_aerase_self st.rooms r

theorem lookupRoom_eraseRoom_ne (st : ServerState) (r r0 : String) (h : r ≠ r0) :
    lookupRoom (eraseRoom st r0) r = lookupRoom st r :=
  alookup_aerase_ne st.rooms r r0 h

theorem lookupNick_aset_self (st : ServerState) (n : String) (s : Nat) :
    alookup (aset st.nicknames n s) n = some s :=
  alookup_aset_self st.nicknames n s

theorem lookupNick_eraseNickKey_self (st : ServerState) (n : String) :
    lookupNick (eraseNickKey st n) n = none :=
  alookup_aerase_self st.nicknames n

theorem lookupNick_eraseNickKey_ne (st : ServerState) (n n0 : String) (h : n ≠ n0) :
    lookupNick (eraseNickKey st n0) n = lookupNick st n :=
  alookup_aerase_ne st.nicknames n n0 h

theorem getSess_setCurRoom_self (st : ServerState) (s : Nat) (r : String) :
    getSess (setCurRoom st s r) s = { getSess st s with currentRoom := r } :=
  getSess_setSess_self st s _

theorem getSess_setCurRoom_ne (st : ServerState) (s t : Nat) (r : String) (h : t ≠ s) :
    getSess (setCurRoom st s r) t = getSess st t :=
  getSess_setSess_ne st s t _ h

theorem registerAccept_shape (st1 st2 : ServerState) (nick : String) (s : Nat)
    (o r : String) (ok : Bool)
    (h : registerAccept st1 nick s o r = some (ok, st2)) :
    ok = true ∧ st2.alive = st1.alive ∧ st2.sess = st1.sess ∧
      st2.sessions = st1.sessions ∧ st2.rooms = st1.rooms ∧
      lookupNick st2 nick = some s := by
  unfold registerAccept at h
  split at h
  · split at h
    · exact absurd h (by simp)
    · rename_i u hu
      split at h <;>
      · simp only [Option.some.injEq, Prod.mk.injEq] at h
        obtain ⟨hok, hst⟩ := h
        subst hst
        exact ⟨hok.symm, rfl, rfl, rfl, rfl, lookupNick_aset_self _ nick s⟩
  · simp only [Option.some.injEq, Prod.mk.injEq] at h
    obtain ⟨hok, hst⟩ := h
    subst hst
    exact ⟨hok.symm, rfl, rfl, rfl, rfl, lookupNick_aset_self _ nick s⟩

theorem registerAccept_lookup_live (st1 st2 : ServerState) (nick : String) (s : Nat)
    (o r : String) (ok : Bool)
    (h : registerAccept st1 nick s o r = some (ok, st2))
    (n : String) (t : Nat) (hn : n ≠ nick) (hl : lookupNick st1 n = some t)
    (ht : t ∈ st1.alive) (hts : t ≠ s) :
    lookupNick st2 n = some t := by
  unfold registerAccept at h
  split at h
  · split at h
    · exact absurd h (by simp)
    · rename_i u hu
      split at h <;> rename_i hcase <;>
        simp only [Option.some.injEq, Prod.mk.injEq] at h <;>
        obtain ⟨-, hst⟩ := h <;> subst hst
      · -- the old entry was erased; it pointed at s or at a dead session
        have hno : n ≠ o := by
          intro hno; subst hno
          rw [hl] at hu
          cases hu
          rcases hcase with hc | hc
          · exact hts hc
          · exact hc ht
        show alookup (aset (eraseNickKey st1 o).nicknames nick s) n = some t
        rw [alookup_aset_ne _ n nick s hn]
        exact alookup_aerase_ne st1.nicknames n o hno ▸ hl
      · show alookup (aset st1.nicknames nick s) n = some t
        rw [alookup_aset_ne _ n nick s hn]
        exact hl
  · simp only [Option.some.injEq, Prod.mk.injEq] at h
    obtain ⟨-, hst⟩ := h; subst hst
    show alookup (aset st1.nicknames nick s) n = some t
    rw [alookup_aset_ne _ n nick s hn]
    exact hl

theorem impl_fail (st st1 : ServerState) (nick : String) (s : Nat)
    (h : tryRegisterNicknameImpl st nick s = some (false, st1)) : st1 = st := by
  unfold tryRegisterNicknameImpl at h
  split at h
  · split at h
    · have := (registerAccept_shape _ _ _ _ _ _ _ h).1
      exact absurd this (by simp)
    · split at h
      · have := (registerAccept_shape _ _ _ _ _ _ _ h).1
        exact absurd this (by simp)
      · split at h
        · have := (registerAccept_shape _ _ _ _ _ _ _ h).1
          exact absurd this (by simp)
        · simp only [Option.some.injEq, Prod.mk.injEq] at h
          exact h.2.symm
  · simp only [Option.some.injEq, Prod.mk.injEq] at h
    exact h.2.symm

theorem impl_shape (st st1 : ServerState) (nick : String) (s : Nat)
    (h : tryRegisterNicknameImpl st nick s = some (true, st1)) :
    st1.alive = st.alive ∧ st1.sess = st.sess ∧ st1.sessions = st.sessions ∧
      st1.rooms = st.rooms ∧ lookupNick st1 nick = some s := by
  unfold tryRegisterNicknameImpl at h
  split at h
  · split at h
    · exact (registerAccept_shape _ _ _ _ _ _ _ h).2
    · split at h
      · exact (registerAccept_shape _ _ _ _ _ _ _ h).2
      · split at h
        · exact (registerAccept_shape _ _ _ _ _ _ _ h).2
        · exact absurd h (by simp)
  · exact absurd h (by simp)

theorem impl_lookup_live (st st1 : ServerState) (nick : String) (s : Nat)
    (h : tryRegisterNicknameImpl st nick s = some (true, st1))
    (n : String) (t : Nat) (hn : n ≠ nick) (hl : lookupNick st n = some t)
    (ht : t ∈ st.alive) (hts : t ≠ s) :
    lookupNick st1 n = some t := by
  unfold tryRegisterNicknameImpl at h
  split at h
  · split at h
    · exact registerAccept_lookup_live _ _ _ _ _ _ _ h n t hn hl ht hts
    · split at h
      · refine registerAccept_lookup_live _ _ _ _ _ _ _ h n t hn ?_ ht hts
        exact (lookupNick_eraseNickKey_ne st n nick hn).symm ▸ hl
      · split at h
        · exact registerAccept_lookup_live _ _ _ _ _ _ _ h n t hn hl ht hts
        · exact absurd h (by simp)
  · exact absurd h (by simp)

theorem reg_fail (st st' : ServerState) (nick : String) (s : Nat)
    (h : registerNickname st nick s = some (false, st')) : st' = st := by
  unfold registerNickname at h
  split at h
  · exact absurd h (by simp)
  · rename_i ok1 st1 hp
    split at h
    · exact absurd h (by simp)
    · rename_i hok
      simp only [Bool.not_eq_true] at hok
      subst hok
      simp only [Option.some.injEq, Prod.mk.injEq] at h
      exact h.2.symm ▸ impl_fail st st1 nick s hp

theorem reg_shape (st st' : ServerState) (nick : String) (s : Nat)
    (h : registerNickname st nick s = some (true, st')) :
    st'.alive = st.alive ∧ st'.sessions = st.sessions ∧ st'.rooms = st.rooms ∧
      getSess st' s = { getSess st s with nickname := nick } ∧
      (∀ t, t ≠ s → getSess st' t = getSess st t) ∧
      lookupNick st' nick = some s := by
  unfold registerNickname at h
  split at h
  · exact absurd h (by simp)
  · rename_i ok1 st1 hp
    split at h
    · rename_i hok
      subst hok
      simp only [Option.some.injEq, Prod.mk.injEq, true_and] at h
      obtain ⟨h1, h2, h3, h4, h5⟩ := impl_shape st st1 nick s hp
      subst h
      have hget : ∀ u, getSess st1 u = getSess st u := by
        intro u; unfold getSess; rw [h2]
      refine ⟨h1, h3, h4, ?_, ?_, h5⟩
      · rw [getSess_setSess_self, hget]
      · intro t htne
        rw [getSess_setSess_ne _ _ _ _ htne, hget]
    · rename_i hok
      simp only [Bool.not_eq_true] at hok
      subst hok
      exact absurd h (by simp)

theorem reg_lookup_live (st st' : ServerState) (nick : String) (s : Nat)
    (h : registerNickname st nick s = some (true, st'))
    (n : String) (t : Nat) (hn : n ≠ nick) (hl : lookupNick st n = some t)
    (ht : t ∈ st.alive) (hts : t ≠ s) :
    lookupNick st' n = some t := by
  unfold registerNickname at h
  split at h
  · exact absurd h (by simp)
  · rename_i ok1 st1 hp
    split at h
    · rename_i hok
      subst hok
      simp only [Option.some.injEq, Prod.mk.injEq, true_and] at h
      subst h
      exact impl_lookup_live st st1 nick s hp n t hn hl ht hts
    · exact absurd h (by simp)

theorem mem_filter_ne (l : List Nat) (s t : Nat) :
    t ∈ l.filter (fun x => !(x == s)) ↔ t ∈ l ∧ t ≠ s := by
  simp [List.mem_filter]

theorem lookupRoom_unregister (st : ServerState) (n : String) (r : String) :
    lookupRoom (unregisterNickname st n) r = lookupRoom st r := by
  unfold unregisterNickname
  split <;> rfl

theorem getSess_unregister (st : ServerState) (n : String) (t : Nat) :
    getSess (unregisterNickname st n) t = getSess st t := by
  unfold unregisterNickname
  split <;> rfl

theorem sessions_unregister (st : ServerState) (n : String) :
    (unregisterNickname st n).sessions = st.sessions := by
  unfold unregisterNickname
  split <;> rfl

theorem alive_unregister (st : ServerState) (n : String) :
    (unregisterNickname st n).alive = st.alive := by
  unfold unregisterNickname
  split <;> rfl

theorem inv_acceptOp (st : ServerState) (s : Nat) (rid : String)
    (h : Inv st) (ha : s ∉ st.alive) : Inv (acceptOp st s rid) := by
  have hns : s ∉ st.sessions := fun hm => ha (h.sessAlive s hm)
  have hget : ∀ t, t ≠ s → getSess (acceptOp st s rid) t = getSess st t := by
    intro t ht
    exact getSess_setSess_ne st s t ⟨rid, rid, ""⟩ ht
  have hgs : getSess (acceptOp st s rid) s = ⟨rid, rid, ""⟩ :=
    getSess_setSess_self st s ⟨rid, rid, ""⟩
  refine ⟨?_, ?_, ?_, ?_, ?_, ?_, ?_, ?_⟩
  · intro t htm
    exact List.mem_cons_of_mem s (h.sessAlive t htm)
  · intro t htm
    have htne : t ≠ s := fun he => hns (he ▸ htm)
    rw [hget t htne]
    exact h.nickOfSess t htm
  · intro t htm
    have htne : t ≠ s := fun he => hns (he ▸ htm)
    rw [hget t htne]
    exact h.nickNE t htm
  · intro t htm
    by_cases htne : t = s
    · subst htne; rw [hgs]
    · rw [hget t htne]
      exact h.curRoomOut t htm
  · intro t htm hcr
    have htne : t ≠ s := fun he => hns (he ▸ htm)
    rw [hget t htne] at hcr ⊢
    exact h.curRoomMem t htm hcr
  · intro r m t hl htm
    have hin := h.roomMem r m t hl htm
    have htne : t ≠ s := fun he => hns (he ▸ hin.1)
    rw [hget t htne]
    exact hin
  · exact h.roomNE
  · exact h.roomKey

theorem inv_joinServer (st : ServerState) (s : Nat)
    (h : Inv st) (ha : s ∈ st.alive)
    (hn : (getSess st s).nickname = (getSess st s).remoteId)
    (hc : (getSess st s).currentRoom = "") (hs : s ∉ st.sessions) :
    Inv (joinServer st s) := by
  have hj : joinServer st s = { st with sessions := s :: st.sessions } := by
    unfold joinServer
    rw [if_neg hs]
  rw [hj]
  refine ⟨?_, ?_, ?_, ?_, ?_, ?_, ?_, ?_⟩
  · intro t htm
    rcases List.mem_cons.mp htm with he | htm'
    · exact he ▸ ha
    · exact h.sessAlive t htm'
  · intro t htm hne
    rcases List.mem_cons.mp htm with he | htm'
    · subst he
      exact absurd hn hne
    · exact h.nickOfSess t htm' hne
  · intro t htm
    rcases List.mem_cons.mp htm with he | htm'
    · subst he
      exact Or.inr hn
    · exact h.nickNE t htm'
  · intro t htm
    have : t ∉ st.sessions := fun hm => htm (List.mem_cons_of_mem s hm)
    exact h.curRoomOut t this
  · intro t htm hcr
    rcases List.mem_cons.mp htm with he | htm'
    · subst he
      exact absurd hc hcr
    · exact h.curRoomMem t htm' hcr
  · intro r m t hl htm
    have hin := h.roomMem r m t hl htm
    exact ⟨List.mem_cons_of_mem s hin.1, hin.2⟩
  · exact h.roomNE
  · exact h.roomKey

theorem inv_destroyOp (st : ServerState) (s : Nat)
    (h : Inv st) (hs : s ∉ st.sessions) : Inv (destroyOp st s) := by
  refine ⟨?_, h.nickOfSess, h.nickNE, h.curRoomOut, h.curRoomMem, h.roomMem,
    h.roomNE, h.roomKey⟩
  intro t htm
  have htne : t ≠ s := fun he => hs (he ▸ htm)
  exact (mem_filter_ne st.alive s t).mpr ⟨h.sessAlive t htm, htne⟩

theorem impl_success_probe (st st1 : ServerState) (nick : String) (s : Nat)
    (h : tryRegisterNicknameImpl st nick s = some (true, st1)) :
    ∀ t, lookupNick st nick = some t → t ∈ st.alive → t = s := by
  unfold tryRegisterNicknameImpl at h
  split at h
  · split at h
    · rename_i hl
      intro t hlu
      rw [hl] at hlu
      cases hlu
    · rename_i t0 hl
      intro t hlu ht
      rw [hl] at hlu
      cases hlu
      split at h
      · rename_i hdead
        exact absurd ht hdead
      · split at h
        · assumption
        · exact absurd h (by simp)
  · exact absurd h (by simp)

theorem reg_success_probe (st st' : ServerState) (nick : String) (s : Nat)
    (h : registerNickname st nick s = some (true, st')) :
    ∀ t, lookupNick st nick = some t → t ∈ st.alive → t = s := by
  unfold registerNickname at h
  split at h
  · exact absurd h (by simp)
  · rename_i ok1 st1 hp
    split at h
    · rename_i hok
      subst hok
      exact impl_success_probe st st1 nick s hp
    · exact absurd h (by simp)

theorem inv_register (st st' : ServerState) (s : Nat) (nick : String) (ok : Bool)
    (h : Inv st) (hm : s ∈ st.sessions) (hv : validNick nick)
    (hr : registerNickname st nick s = some (ok, st')) : Inv st' := by
  cases ok with
  | false =>
    rw [reg_fail st st' nick s hr]
    exact h
  | true =>
    obtain ⟨hal, hses, hrooms, hgs, hgne, hlu⟩ := reg_shape st st' nick s hr
    have hluR : ∀ r, lookupRoom st' r = lookupRoom st r := by
      intro r; unfold lookupRoom; rw [hrooms]
    refine ⟨?_, ?_, ?_, ?_, ?_, ?_, ?_, ?_⟩
    · intro t htm
      rw [hses] at htm
      rw [hal]
      exact h.sessAlive t htm
    · intro t htm hne
      rw [hses] at htm
      by_cases hts : t = s
      · subst hts
        rw [hgs]
        exact hlu
      · rw [hgne t hts] at hne ⊢
        have hnn : (getSess st t).nickname ≠ nick := by
          intro he
          have hvt := h.nickOfSess t htm hne
          rw [he] at hvt
          exact hts (reg_success_probe st st' nick s hr t hvt (h.sessAlive t htm))
        exact reg_lookup_live st st' nick s hr _ t hnn
          (h.nickOfSess t htm hne) (h.sessAlive t htm) hts
    · intro t htm
      rw [hses] at htm
      by_cases hts : t = s
      · subst hts
        rw [hgs]
        exact Or.inl hv.1
      · rw [hgne t hts]
        exact h.nickNE t htm
    · intro t htm
      rw [hses] at htm
      have hts : t ≠ s := fun he => htm (he ▸ hm)
      rw [hgne t hts]
      exact h.curRoomOut t htm
    · intro t htm hcr
      rw [hses] at htm
      by_cases hts : t = s
      · subst hts
        rw [hgs] at hcr ⊢
        simp only at hcr ⊢
        obtain ⟨m, hm1, hm2⟩ := h.curRoomMem t hm hcr
        exact ⟨m, (hluR _).symm ▸ hm1, hm2⟩
      · rw [hgne t hts] at hcr ⊢
        obtain ⟨m, hm1, hm2⟩ := h.curRoomMem t htm hcr
        exact ⟨m, (hluR _).symm ▸ hm1, hm2⟩
    · intro r m t hl htm
      rw [hluR] at hl
      obtain ⟨h1, h2⟩ := h.roomMem r m t hl htm
      rw [hses]
      refine ⟨h1, ?_⟩
      by_cases hts : t = s
      · subst hts
        rw [hgs]
        simpa using h2
      · rw [hgne t hts]
        exact h2
    · intro r m hl
      rw [hluR] at hl
      exact h.roomNE r m hl
    · rw [hluR]
      exact h.roomKey

theorem inv_leaveRoomCur (st : ServerState) (s : Nat) (room : String)
    (h : Inv st) (hs : s ∈ st.sessions)
    (hcur : (getSess st s).currentRoom = room) (hne : room ≠ "") :
    Inv (leaveRoomOp st room s).2 := by
  have hcr0 : (getSess st s).currentRoom ≠ "" := by rw [hcur]; exact hne
  obtain ⟨m, hmL0, hms⟩ := h.curRoomMem s hs hcr0
  have hmL : lookupRoom st room = some m := by rw [← hcur]; exact hmL0
  have hred : (leaveRoomOp st room s).2 =
      setCurRoom (if removeParticipant st.alive m s = [] then eraseRoom st room
        else setRoomMembers st room (removeParticipant st.alive m s)) s "" := by
    unfold leaveRoomOp
    rw [hmL]
  rw [hred]
  by_cases hmp : removeParticipant st.alive m s = []
  · -- the room became empty and is erased
    rw [if_pos hmp]
    have hget : ∀ t, t ≠ s → getSess (setCurRoom (eraseRoom st room) s "") t = getSess st t := by
      intro t ht
      exact getSess_setCurRoom_ne (eraseRoom st room) s t "" ht
    have hgs : getSess (setCurRoom (eraseRoom st room) s "") s =
        { getSess st s with currentRoom := "" } :=
      getSess_setCurRoom_self (eraseRoom st room) s ""
    have hlr : ∀ r, r ≠ room →
        lookupRoom (setCurRoom (eraseRoom st room) s "") r = lookupRoom st r := by
      intro r hr
      exact lookupRoom_eraseRoom_ne st r room hr
    have hlroom : lookupRoom (setCurRoom (eraseRoom st room) s "") room = none :=
      lookupRoom_eraseRoom_self st room
    refine ⟨h.sessAlive, ?_, ?_, ?_, ?_, ?_, ?_, ?_⟩
    · intro t htm hnick
      by_cases hts : t = s
      · subst hts
        rw [hgs] at hnick ⊢
        simp only at hnick ⊢
        exact h.nickOfSess t htm hnick
      · rw [hget t hts] at hnick ⊢
        exact h.nickOfSess t htm hnick
    · intro t htm
      by_cases hts : t = s
      · subst hts
        rw [hgs]
        simp only
        exact h.nickNE t htm
      · rw [hget t hts]
        exact h.nickNE t htm
    · intro t htm
      have hts : t ≠ s := fun he => htm (he ▸ hs)
      rw [hget t hts]
      exact h.curRoomOut t htm
    · intro t htm hcr
      by_cases hts : t = s
      · subst hts
        rw [hgs] at hcr
        simp only [ne_eq, not_true_eq_false] at hcr
      · rw [hget t hts] at hcr ⊢
        obtain ⟨mt, hmtL, hmtm⟩ := h.curRoomMem t htm hcr
        by_cases hrr : (getSess st t).currentRoom = room
        · exfalso
          rw [hrr, hmL] at hmtL
          cases hmtL
          have : t ∈ removeParticipant st.alive m s :=
            (mem_removeParticipant st.alive m s t).mpr ⟨hmtm, hts, h.sessAlive t htm⟩
          rw [hmp] at this
          cases this
        · rw [hlr _ hrr]
          exact ⟨mt, hmtL, hmtm⟩
    · intro r m0 t hl htm0
      by_cases hrr : r = room
      · rw [hrr, hlroom] at hl
        cases hl
      · rw [hlr r hrr] at hl
        obtain ⟨h1, h2⟩ := h.roomMem r m0 t hl htm0
        have hts : t ≠ s := by
          intro he
          subst he
          rw [h2] at hcur
          exact hrr hcur
        rw [hget t hts]
        exact ⟨h1, h2⟩
    · intro r m0 hl
      by_cases hrr : r = room
      · rw [hrr, hlroom] at hl
        cases hl
      · rw [hlr r hrr] at hl
        exact h.roomNE r m0 hl
    · rw [hlr "" (Ne.symm hne)]
      exact h.roomKey
  · -- members remain; the room is updated
    rw [if_neg hmp]
    have hget : ∀ t, t ≠ s →
        getSess (setCurRoom (setRoomMembers st room (removeParticipant st.alive m s)) s "") t =
          getSess st t := by
      intro t ht
      exact getSess_setCurRoom_ne _ s t "" ht
    have hgs : getSess (setCurRoom (setRoomMembers st room (removeParticipant st.alive m s)) s "") s =
        { getSess st s with currentRoom := "" } :=
      getSess_setCurRoom_self _ s ""
    have hlr : ∀ r, r ≠ room →
        lookupRoom (setCurRoom (setRoomMembers st room (removeParticipant st.alive m s)) s "") r =
          lookupRoom st r := by
      intro r hr
      exact lookupRoom_setRoomMembers_ne st r room _ hr
    have hlroom :
        lookupRoom (setCurRoom (setRoomMembers st room (removeParticipant st.alive m s)) s "") room =
          some (removeParticipant st.alive m s) :=
      lookupRoom_setRoomMembers_self st room _
    refine ⟨h.sessAlive, ?_, ?_, ?_, ?_, ?_, ?_, ?_⟩
    · intro t htm hnick
      by_cases hts : t = s
      · subst hts
        rw [hgs] at hnick ⊢
        simp only at hnick ⊢
        exact h.nickOfSess t htm hnick
      · rw [hget t hts] at hnick ⊢
        exact h.nickOfSess t htm hnick
    · intro t htm
      by_cases hts : t = s
      · subst hts
        rw [hgs]
        simp only
        exact h.nickNE t htm
      · rw [hget t hts]
        exact h.nickNE t htm
    · intro t htm
      have hts : t ≠ s := fun he => htm (he ▸ hs)
      rw [hget t hts]
      exact h.curRoomOut t htm
    · intro t htm hcr
      by_cases hts : t = s
      · subst hts
        rw [hgs] at hcr
        simp only [ne_eq, not_true_eq_false] at hcr
      · rw [hget t hts] at hcr ⊢
        obtain ⟨mt, hmtL, hmtm⟩ := h.curRoomMem t htm hcr
        by_cases hrr : (getSess st t).currentRoom = room
        · rw [hrr, hmL] at hmtL
          cases hmtL
          rw [hrr, hlroom]
          exact ⟨removeParticipant st.alive m s, rfl,
            (mem_removeParticipant st.alive m s t).mpr ⟨hmtm, hts, h.sessAlive t htm⟩⟩
        · rw [hlr _ hrr]
          exact ⟨mt, hmtL, hmtm⟩
    · intro r m0 t hl htm0
      by_cases hrr : r = room
      · subst hrr
        rw [hlroom] at hl
        cases hl
        obtain ⟨htm, hts, htl⟩ := (mem_removeParticipant st.alive m s t).mp htm0
        obtain ⟨h1, h2⟩ := h.roomMem r m t hmL htm
        rw [hget t hts]
        exact ⟨h1, h2⟩
      · rw [hlr r hrr] at hl
        obtain ⟨h1, h2⟩ := h.roomMem r m0 t hl htm0
        have hts : t ≠ s := by
          intro he
          subst he
          rw [h2] at hcur
          exact hrr hcur
        rw [hget t hts]
        exact ⟨h1, h2⟩
    · intro r m0 hl
      by_cases hrr : r = room
      · subst hrr
        rw [hlroom] at hl
        cases hl
        exact hmp
      · rw [hlr r hrr] at hl
        exact h.roomNE r m0 hl
    · rw [hlr "" (Ne.symm hne)]
      exact h.roomKey

theorem leaveRoomOp_nicknames (st : ServerState) (room : String) (s : Nat) :
    ((leaveRoomOp st room s).2).nicknames = st.nicknames := by
  unfold leaveRoomOp
  split
  · rfl
  · dsimp only
    split <;> rfl

theorem leaveRoomOp_sessions (st : ServerState) (room : String) (s : Nat) :
    ((leaveRoomOp st room s).2).sessions = st.sessions := by
  unfold leaveRoomOp
  split
  · rfl
  · dsimp only
    split <;> rfl

theorem leaveRoomOp_alive (st : ServerState) (room : String) (s : Nat) :
    ((leaveRoomOp st room s).2).alive = st.alive := by
  unfold leaveRoomOp
  split
  · rfl
  · dsimp only
    split <;> rfl

theorem leaveRoomOp_getSess_ne (st : ServerState) (room : String) (s t : Nat)
    (ht : t ≠ s) : getSess ((leaveRoomOp st room s).2) t = getSess st t := by
  unfold leaveRoomOp
  split
  · rfl
  · dsimp only
    show getSess (setCurRoom _ s "") t = getSess st t
    rw [getSess_setCurRoom_ne _ s t "" ht]
    split <;> rfl

theorem leaveAll_nicknames (st : ServerState) (s : Nat) :
    (leaveAllRooms st s).nicknames = st.nicknames := by
  unfold leaveAllRooms
  dsimp only
  split
  · rfl
  · exact leaveRoomOp_nicknames st _ s

theorem leaveAll_sessions (st : ServerState) (s : Nat) :
    (leaveAllRooms st s).sessions = st.sessions := by
  unfold leaveAllRooms
  dsimp only
  split
  · rfl
  · exact leaveRoomOp_sessions st _ s

theorem leaveAll_alive (st : ServerState) (s : Nat) :
    (leaveAllRooms st s).alive = st.alive := by
  unfold leaveAllRooms
  dsimp only
  split
  · rfl
  · exact leaveRoomOp_alive st _ s

theorem leaveAll_getSess_ne (st : ServerState) (s t : Nat) (ht : t ≠ s) :
    getSess (leaveAllRooms st s) t = getSess st t := by
  unfold leaveAllRooms
  dsimp only
  split
  · rfl
  · exact leaveRoomOp_getSess_ne st _ s t ht

theorem inv_leaveAll (st : ServerState) (s : Nat) (h : Inv st) (hs : s ∈ st.sessions) :
    Inv (leaveAllRooms st s) := by
  unfold leaveAllRooms
  dsimp only
  split
  · exact h
  · rename_i hcr
    exact inv_leaveRoomCur st s _ h hs rfl hcr

theorem leaveAll_curRoom (st : ServerState) (s : Nat) (h : Inv st) (hs : s ∈ st.sessions) :
    (getSess (leaveAllRooms st s) s).currentRoom = "" := by
  unfold leaveAllRooms
  dsimp only
  split
  · assumption
  · rename_i hcr
    obtain ⟨m, hm, -⟩ := h.curRoomMem s hs hcr
    unfold leaveRoomOp
    rw [hm]
    show (getSess (setCurRoom _ s "") s).currentRoom = ""
    rw [getSess_setCurRoom_self]

theorem leaveRoomOp_nickFields (st : ServerState) (room : String) (s t : Nat) :
    (getSess ((leaveRoomOp st room s).2) t).nickname = (getSess st t).nickname ∧
    (getSess ((leaveRoomOp st room s).2) t).remoteId = (getSess st t).remoteId := by
  unfold leaveRoomOp
  split
  · exact ⟨rfl, rfl⟩
  · dsimp only
    by_cases ht : t = s
    · subst ht
      show (getSess (setCurRoom _ t "") t).nickname = _ ∧
        (getSess (setCurRoom _ t "") t).remoteId = _
      rw [getSess_setCurRoom_self]
      constructor
      · show (getSess _ t).nickname = (getSess st t).nickname
        split <;> rfl
      · show (getSess _ t).remoteId = (getSess st t).remoteId
        split <;> rfl
    · show (getSess (setCurRoom _ s "") t).nickname = _ ∧
        (getSess (setCurRoom _ s "") t).remoteId = _
      rw [getSess_setCurRoom_ne _ s t "" ht]
      constructor
      · show (getSess _ t).nickname = (getSess st t).nickname
        split <;> rfl
      · show (getSess _ t).remoteId = (getSess st t).remoteId
        split <;> rfl

theorem leaveAll_nickFields (st : ServerState) (s t : Nat) :
    (getSess (leaveAllRooms st s) t).nickname = (getSess st t).nickname ∧
    (getSess (leaveAllRooms st s) t).remoteId = (getSess st t).remoteId := by
  unfold leaveAllRooms
  dsimp only
  split
  · exact ⟨rfl, rfl⟩
  · exact leaveRoomOp_nickFields st _ s t

theorem inv_drop (st1 : ServerState) (s : Nat) (hInv1 : Inv st1)
    (hcur1 : (getSess st1 s).currentRoom = "")
    (hnom : ∀ r m0, lookupRoom st1 r = some m0 → s ∉ m0) :
    Inv { st1 with sessions := st1.sessions.filter (fun t => !(t == s)) } := by
  refine ⟨?_, ?_, ?_, ?_, ?_, ?_, hInv1.roomNE, hInv1.roomKey⟩
  · intro t htm
    obtain ⟨htm, -⟩ := (mem_filter_ne st1.sessions s t).mp htm
    exact hInv1.sessAlive t htm
  · intro t htm hnick
    obtain ⟨htm, -⟩ := (mem_filter_ne st1.sessions s t).mp htm
    exact hInv1.nickOfSess t htm hnick
  · intro t htm
    obtain ⟨htm, -⟩ := (mem_filter_ne st1.sessions s t).mp htm
    exact hInv1.nickNE t htm
  · intro t htm
    by_cases hts : t = s
    · subst hts
      exact hcur1
    · have : t ∉ st1.sessions := fun hm =>
        htm ((mem_filter_ne st1.sessions s t).mpr ⟨hm, hts⟩)
      exact hInv1.curRoomOut t this
  · intro t htm hcr
    obtain ⟨htm, -⟩ := (mem_filter_ne st1.sessions s t).mp htm
    exact hInv1.curRoomMem t htm hcr
  · intro r m0 t hl htm0
    obtain ⟨h1, h2⟩ := hInv1.roomMem r m0 t hl htm0
    have hts : t ≠ s := fun he => hnom r m0 hl (he ▸ htm0)
    exact ⟨(mem_filter_ne st1.sessions s t).mpr ⟨h1, hts⟩, h2⟩

theorem inv_unreg_drop (st1 : ServerState) (s : Nat) (hInv1 : Inv st1)
    (hs1 : s ∈ st1.sessions)
    (hcur1 : (getSess st1 s).currentRoom = "")
    (hnom : ∀ r m0, lookupRoom st1 r = some m0 → s ∉ m0)
    (hns : (getSess st1 s).nickname ≠ "" ∧
      (getSess st1 s).nickname ≠ (getSess st1 s).remoteId) :
    Inv { st1 with
          nicknames := aerase st1.nicknames ((getSess st1 s).nickname),
          sessions := st1.sessions.filter (fun t => !(t == s)) } := by
  have hlus : lookupNick st1 ((getSess st1 s).nickname) = some s :=
    hInv1.nickOfSess s hs1 hns.2
  have hget : ∀ t, getSess { st1 with
          nicknames := aerase st1.nicknames ((getSess st1 s).nickname),
          sessions := st1.sessions.filter (fun t => !(t == s)) } t = getSess st1 t :=
    fun _ => rfl
  have hlur : ∀ r, lookupRoom { st1 with
          nicknames := aerase st1.nicknames ((getSess st1 s).nickname),
          sessions := st1.sessions.filter (fun t => !(t == s)) } r = lookupRoom st1 r :=
    fun _ => rfl
  have hluN : ∀ n, n ≠ (getSess st1 s).nickname →
      lookupNick { st1 with
          nicknames := aerase st1.nicknames ((getSess st1 s).nickname),
          sessions := st1.sessions.filter (fun t => !(t == s)) } n = lookupNick st1 n := by
    intro n hn
    exact alookup_aerase_ne st1.nicknames n _ hn
  refine ⟨?_, ?_, ?_, ?_, ?_, ?_, ?_, ?_⟩
  · intro t htm
    obtain ⟨htm, -⟩ := (mem_filter_ne st1.sessions s t).mp htm
    exact hInv1.sessAlive t htm
  · intro t htm hnick
    obtain ⟨htm, hts⟩ := (mem_filter_ne st1.sessions s t).mp htm
    rw [hget t] at hnick ⊢
    have hnn : (getSess st1 t).nickname ≠ (getSess st1 s).nickname := by
      intro he
      have hx := hInv1.nickOfSess t htm hnick
      rw [he, hlus] at hx
      cases hx
      exact hts rfl
    rw [hluN _ hnn]
    exact hInv1.nickOfSess t htm hnick
  · intro t htm
    obtain ⟨htm, -⟩ := (mem_filter_ne st1.sessions s t).mp htm
    rw [hget t]
    exact hInv1.nickNE t htm
  · intro t htm
    rw [hget t]
    by_cases hts : t = s
    · subst hts
      exact hcur1
    · have : t ∉ st1.sessions := fun hm =>
        htm ((mem_filter_ne st1.sessions s t).mpr ⟨hm, hts⟩)
      exact hInv1.curRoomOut t this
  · intro t htm hcr
    obtain ⟨htm, -⟩ := (mem_filter_ne st1.sessions s t).mp htm
    rw [hget t] at hcr ⊢
    obtain ⟨mt, hmt1, hmt2⟩ := hInv1.curRoomMem t htm hcr
    exact ⟨mt, (hlur _).symm ▸ hmt1, hmt2⟩
  · intro r m0 t hl htm0
    rw [hlur r] at hl
    obtain ⟨h1, h2⟩ := hInv1.roomMem r m0 t hl htm0
    have hts : t ≠ s := fun he => hnom r m0 hl (he ▸ htm0)
    rw [hget t]
    exact ⟨(mem_filter_ne st1.sessions s t).mpr ⟨h1, hts⟩, h2⟩
  · intro r m0 hl
    rw [hlur r] at hl
    exact hInv1.roomNE r m0 hl
  · rw [hlur ""]
    exact hInv1.roomKey

theorem inv_leaveOp (st : ServerState) (s : Nat) (h : Inv st) (hs : s ∈ st.sessions) :
    Inv (leaveOp st s).2 := by
  have hInv1 : Inv (leaveAllRooms st s) := inv_leaveAll st s h hs
  have hs1 : s ∈ (leaveAllRooms st s).sessions := by
    rw [leaveAll_sessions]; exact hs
  have hcur1 : (getSess (leaveAllRooms st s) s).currentRoom = "" :=
    leaveAll_curRoom st s h hs
  have hnom : ∀ r m0, lookupRoom (leaveAllRooms st s) r = some m0 → s ∉ m0 := by
    intro r m0 hl hmem
    have h2 := (hInv1.roomMem r m0 s hl hmem).2
    rw [hcur1] at h2
    rw [← h2, hInv1.roomKey] at hl
    cases hl
  have hfield := leaveAll_nickFields st s s
  have hred : (leaveOp st s).2 =
      if (getSess st s).nickname ≠ "" ∧ (getSess st s).nickname ≠ (getSess st s).remoteId
      then { (unregisterNickname (leaveAllRooms st s) ((getSess st s).nickname)) with
        sessions :=
          (unregisterNickname (leaveAllRooms st s) ((getSess st s).nickname)).sessions.filter
            (fun t => !(t == s)) }
      else { (leaveAllRooms st s) with
        sessions := (leaveAllRooms st s).sessions.filter (fun t => !(t == s)) } := by
    unfold leaveOp
    dsimp only
    by_cases hbr : (getSess st s).nickname ≠ "" ∧
        (getSess st s).nickname ≠ (getSess st s).remoteId
    · rw [if_pos hbr, if_pos hbr]
    · rw [if_neg hbr, if_neg hbr]
  rw [hred]
  by_cases hbr : (getSess st s).nickname ≠ "" ∧
      (getSess st s).nickname ≠ (getSess st s).remoteId
  · rw [if_pos hbr]
    have hns1 : (getSess (leaveAllRooms st s) s).nickname ≠ "" ∧
        (getSess (leaveAllRooms st s) s).nickname ≠
          (getSess (leaveAllRooms st s) s).remoteId := by
      rw [hfield.1, hfield.2]
      exact hbr
    have hgoal := inv_unreg_drop (leaveAllRooms st s) s hInv1 hs1 hcur1 hnom hns1
    rw [hfield.1] at hgoal
    have heq : { (unregisterNickname (leaveAllRooms st s) ((getSess st s).nickname)) with
        sessions :=
          (unregisterNickname (leaveAllRooms st s) ((getSess st s).nickname)).sessions.filter
            (fun t => !(t == s)) } =
        { (leaveAllRooms st s) with
            nicknames := aerase (leaveAllRooms st s).nicknames ((getSess st s).nickname),
            sessions := (leaveAllRooms st s).sessions.filter (fun t => !(t == s)) } := by
      unfold unregisterNickname eraseNickKey
      rw [if_neg hbr.1]
    rw [heq]
    exact hgoal
  · rw [if_neg hbr]
    exact inv_drop (leaveAllRooms st s) s hInv1 hcur1 hnom

theorem inv_joinFinal (st st1 : ServerState) (s : Nat) (room : String)
    (h : Inv st) (hs : s ∈ st.sessions) (hne : room ≠ "")
    (hsess : st1.sess = st.sess)
    (hses : st1.sessions = st.sessions)
    (hal : st1.alive = st.alive)
    (hnik : st1.nicknames = st.nicknames)
    (hF3 : ∀ r m0 t, lookupRoom st1 r = some m0 → t ∈ m0 →
      t ∈ st.sessions ∧ (getSess st t).currentRoom = r)
    (hF3x : ∀ r m0, lookupRoom st1 r = some m0 → s ∈ m0 → r = room)
    (hF4 : ∀ r m0, lookupRoom st1 r = some m0 → m0 ≠ [])
    (hF5 : lookupRoom st1 "" = none)
    (hF6 : ∀ t, t ∈ st.sessions → t ≠ s → (getSess st t).currentRoom ≠ "" →
      ∃ m0, lookupRoom st1 ((getSess st t).currentRoom) = some m0 ∧ t ∈ m0) :
    Inv (setCurRoom (setRoomMembers st1 room
      (addParticipant ((lookupRoom st1 room).getD []) s)) s room) := by
  have hget1 : ∀ t, getSess st1 t = getSess st t := by
    intro t; unfold getSess; rw [hsess]
  have hget_ne : ∀ t, t ≠ s →
      getSess (setCurRoom (setRoomMembers st1 room
        (addParticipant ((lookupRoom st1 room).getD []) s)) s room) t = getSess st t := by
    intro t ht
    rw [getSess_setCurRoom_ne _ s t room ht]
    exact hget1 t
  have hget_s : getSess (setCurRoom (setRoomMembers st1 room
      (addParticipant ((lookupRoom st1 room).getD []) s)) s room) s =
      { getSess st s with currentRoom := room } := by
    rw [getSess_setCurRoom_self]
    show ({ getSess st1 s with currentRoom := room } : SessState) = _
    rw [hget1 s]
  have hlu_room : lookupRoom (setCurRoom (setRoomMembers st1 room
      (addParticipant ((lookupRoom st1 room).getD []) s)) s room) room =
      some (addParticipant ((lookupRoom st1 room).getD []) s) :=
    lookupRoom_setRoomMembers_self st1 room _
  have hlu_ne : ∀ r, r ≠ room → lookupRoom (setCurRoom (setRoomMembers st1 room
      (addParticipant ((lookupRoom st1 room).getD []) s)) s room) r =
      lookupRoom st1 r := by
    intro r hr
    exact lookupRoom_setRoomMembers_ne st1 r room _ hr
  have hni : ∀ n, lookupNick (setCurRoom (setRoomMembers st1 room
      (addParticipant ((lookupRoom st1 room).getD []) s)) s room) n = lookupNick st n := by
    intro n; unfold lookupNick; rw [show (setCurRoom (setRoomMembers st1 room
      (addParticipant ((lookupRoom st1 room).getD []) s)) s room).nicknames =
        st1.nicknames from rfl, hnik]
  have hsesF : (setCurRoom (setRoomMembers st1 room
      (addParticipant ((lookupRoom st1 room).getD []) s)) s room).sessions =
      st.sessions := by
    rw [show (setCurRoom (setRoomMembers st1 room
      (addParticipant ((lookupRoom st1 room).getD []) s)) s room).sessions =
        st1.sessions from rfl, hses]
  have halF : (setCurRoom (setRoomMembers st1 room
      (addParticipant ((lookupRoom st1 room).getD []) s)) s room).alive = st.alive := by
    rw [show (setCurRoom (setRoomMembers st1 room
      (addParticipant ((lookupRoom st1 room).getD []) s)) s room).alive =
        st1.alive from rfl, hal]
  have hmem2 : ∀ u, u ∈ (lookupRoom st1 room).getD [] →
      u ∈ st.sessions ∧ (getSess st u).currentRoom = room := by
    intro u hu
    rcases hlr : lookupRoom st1 room with - | m2
    · rw [hlr] at hu
      cases hu
    · rw [hlr] at hu
      exact hF3 room m2 u hlr hu
  refine ⟨?_, ?_, ?_, ?_, ?_, ?_, ?_, ?_⟩
  · intro t htm
    rw [hsesF] at htm
    rw [halF]
    exact h.sessAlive t htm
  · intro t htm hnick
    rw [hsesF] at htm
    rw [hni]
    by_cases hts : t = s
    · subst hts
      rw [hget_s] at hnick ⊢
      simp only at hnick ⊢
      exact h.nickOfSess t htm hnick
    · rw [hget_ne t hts] at hnick ⊢
      exact h.nickOfSess t htm hnick
  · intro t htm
    rw [hsesF] at htm
    by_cases hts : t = s
    · subst hts
      rw [hget_s]
      simp only
      exact h.nickNE t htm
    · rw [hget_ne t hts]
      exact h.nickNE t htm
  · intro t htm
    rw [hsesF] at htm
    have hts : t ≠ s := fun he => htm (he ▸ hs)
    rw [hget_ne t hts]
    exact h.curRoomOut t htm
  · intro t htm hcr
    rw [hsesF] at htm
    by_cases hts : t = s
    · subst hts
      rw [hget_s] at hcr ⊢
      simp only at hcr ⊢
      refine ⟨addParticipant ((lookupRoom st1 room).getD []) t, hlu_room, ?_⟩
      exact (mem_addParticipant _ t t).mpr (Or.inr rfl)
    · rw [hget_ne t hts] at hcr ⊢
      obtain ⟨m0, hm0, htm0⟩ := hF6 t htm hts hcr
      by_cases hrr : (getSess st t).currentRoom = room
      · rw [hrr] at hm0 ⊢
        rw [hlu_room]
        refine ⟨addParticipant ((lookupRoom st1 room).getD []) s, rfl, ?_⟩
        rw [hm0]
        exact (mem_addParticipant _ s t).mpr (Or.inl htm0)
      · rw [hlu_ne _ hrr]
        exact ⟨m0, hm0, htm0⟩
  · intro r m0 t hl htm0
    by_cases hrr : r = room
    · subst hrr
      rw [hlu_room] at hl
      cases hl
      by_cases hts : t = s
      · subst hts
        constructor
        · rw [hsesF]; exact hs
        · rw [hget_s]
      · rcases (mem_addParticipant _ s t).mp htm0 with htm2 | hts2
        · obtain ⟨h1, h2⟩ := hmem2 t htm2
          constructor
          · rw [hsesF]; exact h1
          · rw [hget_ne t hts]; exact h2
        · exact absurd hts2 hts
    · rw [hlu_ne r hrr] at hl
      obtain ⟨h1, h2⟩ := hF3 r m0 t hl htm0
      have hts : t ≠ s := by
        intro he
        subst he
        exact hrr (hF3x r m0 hl htm0)
      constructor
      · rw [hsesF]; exact h1
      · rw [hget_ne t hts]; exact h2
  · intro r m0 hl
    by_cases hrr : r = room
    · subst hrr
      rw [hlu_room] at hl
      cases hl
      exact List.ne_nil_of_mem ((mem_addParticipant _ s s).mpr (Or.inr rfl))
    · rw [hlu_ne r hrr] at hl
      exact hF4 r m0 hl
  · rw [hlu_ne "" (Ne.symm hne)]
    exact hF5

theorem inv_joinRoomOp (st : ServerState) (s : Nat) (room : String)
    (h : Inv st) (hs : s ∈ st.sessions) (hne : room ≠ "") :
    Inv (joinRoomOp st room s).2 := by
  by_cases hcond : (getSess st s).currentRoom ≠ "" ∧ (getSess st s).currentRoom ≠ room
  · obtain ⟨mOld, hmOld, hsm⟩ := h.curRoomMem s hs hcond.1
    have hred : (joinRoomOp st room s).2 =
        setCurRoom (setRoomMembers
          (if removeParticipant st.alive mOld s = []
            then eraseRoom st ((getSess st s).currentRoom)
            else setRoomMembers st ((getSess st s).currentRoom)
              (removeParticipant st.alive mOld s)) room
          (addParticipant ((lookupRoom
            (if removeParticipant st.alive mOld s = []
              then eraseRoom st ((getSess st s).currentRoom)
              else setRoomMembers st ((getSess st s).currentRoom)
                (removeParticipant st.alive mOld s)) room).getD []) s)) s room := by
      unfold joinRoomOp
      dsimp only
      rw [if_pos hcond, hmOld]
    rw [hred]
    by_cases hmp : removeParticipant st.alive mOld s = []
    · rw [if_pos hmp]
      refine inv_joinFinal st _ s room h hs hne rfl rfl rfl rfl ?_ ?_ ?_ ?_ ?_
      · intro r m0 t hl htm
        by_cases hro : r = (getSess st s).currentRoom
        · rw [hro, lookupRoom_eraseRoom_self] at hl
          cases hl
        · rw [lookupRoom_eraseRoom_ne st r _ hro] at hl
          exact h.roomMem r m0 t hl htm
      · intro r m0 hl hsm2
        by_cases hro : r = (getSess st s).currentRoom
        · rw [hro, lookupRoom_eraseRoom_self] at hl
          cases hl
        · rw [lookupRoom_eraseRoom_ne st r _ hro] at hl
          exact absurd (h.roomMem r m0 s hl hsm2).2.symm hro
      · intro r m0 hl
        by_cases hro : r = (getSess st s).currentRoom
        · rw [hro, lookupRoom_eraseRoom_self] at hl
          cases hl
        · rw [lookupRoom_eraseRoom_ne st r _ hro] at hl
          exact h.roomNE r m0 hl
      · rw [lookupRoom_eraseRoom_ne st "" _ (Ne.symm hcond.1)]
        exact h.roomKey
      · intro t htm hts hcr
        obtain ⟨mt, hmt, htmt⟩ := h.curRoomMem t htm hcr
        by_cases hro : (getSess st t).currentRoom = (getSess st s).currentRoom
        · exfalso
          rw [hro, hmOld] at hmt
          have hmm : mOld = mt := Option.some.inj hmt
          have hx : t ∈ removeParticipant st.alive mOld s :=
            (mem_removeParticipant st.alive mOld s t).mpr
              ⟨by rw [hmm]; exact htmt, hts, h.sessAlive t htm⟩
          rw [hmp] at hx
          cases hx
        · rw [lookupRoom_eraseRoom_ne st _ _ hro]
          exact ⟨mt, hmt, htmt⟩
    · rw [if_neg hmp]
      refine inv_joinFinal st _ s room h hs hne rfl rfl rfl rfl ?_ ?_ ?_ ?_ ?_
      · intro r m0 t hl htm
        by_cases hro : r = (getSess st s).currentRoom
        · rw [hro, lookupRoom_setRoomMembers_self] at hl
          cases hl
          obtain ⟨htm2, hts, htl⟩ := (mem_removeParticipant st.alive mOld s t).mp htm
          have := h.roomMem _ mOld t hmOld htm2
          rw [← hro] at this
          exact this
        · rw [lookupRoom_setRoomMembers_ne st r _ _ hro] at hl
          exact h.roomMem r m0 t hl htm
      · intro r m0 hl hsm2
        by_cases hro : r = (getSess st s).currentRoom
        · rw [hro, lookupRoom_setRoomMembers_self] at hl
          cases hl
          obtain ⟨-, hss, -⟩ := (mem_removeParticipant st.alive mOld s s).mp hsm2
          exact absurd rfl hss
        · rw [lookupRoom_setRoomMembers_ne st r _ _ hro] at hl
          exact absurd (h.roomMem r m0 s hl hsm2).2.symm hro
      · intro r m0 hl
        by_cases hro : r = (getSess st s).currentRoom
        · rw [hro, lookupRoom_setRoomMembers_self] at hl
          cases hl
          exact hmp
        · rw [lookupRoom_setRoomMembers_ne st r _ _ hro] at hl
          exact h.roomNE r m0 hl
      · rw [lookupRoom_setRoomMembers_ne st "" _ _ (Ne.symm hcond.1)]
        exact h.roomKey
      · intro t htm hts hcr
        obtain ⟨mt, hmt, htmt⟩ := h.curRoomMem t htm hcr
        by_cases hro : (getSess st t).currentRoom = (getSess st s).currentRoom
        · rw [hro, hmOld] at hmt
          have hmm : mOld = mt := Option.some.inj hmt
          rw [hro, lookupRoom_setRoomMembers_self]
          exact ⟨removeParticipant st.alive mOld s, rfl,
            (mem_removeParticipant st.alive mOld s t).mpr
              ⟨by rw [hmm]; exact htmt, hts, h.sessAlive t htm⟩⟩
        · rw [lookupRoom_setRoomMembers_ne st _ _ _ hro]
          exact ⟨mt, hmt, htmt⟩
  · have hred : (joinRoomOp st room s).2 =
        setCurRoom (setRoomMembers st room
          (addParticipant ((lookupRoom st room).getD []) s)) s room := by
      unfold joinRoomOp
      dsimp only
      rw [if_neg hcond]
    rw [hred]
    have hcases : (getSess st s).currentRoom = "" ∨ (getSess st s).currentRoom = room := by
      by_cases h1 : (getSess st s).currentRoom = ""
      · exact Or.inl h1
      · by_cases h2 : (getSess st s).currentRoom = room
        · exact Or.inr h2
        · exact absurd ⟨h1, h2⟩ hcond
    refine inv_joinFinal st st s room h hs hne rfl rfl rfl rfl ?_ ?_ h.roomNE
      h.roomKey ?_
    · exact h.roomMem
    · intro r m0 hl hsm2
      have hcr := (h.roomMem r m0 s hl hsm2).2
      rcases hcases with hc | hc
      · rw [hc] at hcr
        rw [← hcr, h.roomKey] at hl
        cases hl
      · rw [hc] at hcr
        exact hcr.symm
    · intro t htm hts hcr
      exact h.curRoomMem t htm hcr

theorem inv_initState : Inv initState := by
  refine ⟨?_, ?_, ?_, ?_, ?_, ?_, ?_, ?_⟩
  · intro s hs
    cases hs
  · intro s hs
    cases hs
  · intro s hs
    cases hs
  · intro s _
    rfl
  · intro s hs
    cases hs
  · intro r m s hl
    cases hl
  · intro r m hl
    cases hl
  · rfl

theorem inv_of_cleanStep (st st' : ServerState) (h : Inv st)
    (hstep : CleanStep st st') : Inv st' := by
  cases hstep with
  | accept s rid ha => exact inv_acceptOp st s rid h ha
  | joined s ha hn hc hs => exact inv_joinServer st s h ha hn hc hs
  | register s nick ok _ hm hv hr => exact inv_register st st' s nick ok h hm hv hr
  | leave s hs => exact inv_leaveOp st s h hs
  | joinRoom s room hs hv => exact inv_joinRoomOp st s room h hs hv.1
  | leaveRoomCur s room hs hcur hne => exact inv_leaveRoomCur st s room h hs hcur hne
  | destroy s ha hs => exact inv_destroyOp st s h hs

theorem inv_of_cleanReachable (st : ServerState) (h : CleanReachable st) : Inv st := by
  induction h with
  | refl => exact inv_initState
  | tail hsteps hstep ih => exact inv_of_cleanStep _ _ ih hstep

theorem cleanStep_step (st st' : ServerState) (h : CleanStep st st') : Step st st' := by
  cases h with
  | accept s rid ha => exact Step.accept st s rid ha
  | joined s ha hn hc hs => exact Step.joined st s ha hn hc hs
  | register s nick ok _ hm hv hr => exact Step.register st s nick ok st' hv hr
  | leave s hs => exact Step.leave st s hs
  | joinRoom s room hs hv => exact Step.joinRoom st s room hs hv
  | leaveRoomCur s room hs hcur hne => exact Step.leaveRoomAny st s room hs hne
  | destroy s ha hs => exact Step.destroy st s ha hs

theorem reachable_of_clean (st : ServerState) (h : CleanReachable st) : Reachable st := by
  induction h with
  | refl => exact Relation.ReflTransGen.refl
  | tail hsteps hstep ih => exact Relation.ReflTransGen.tail ih (cleanStep_step _ _ hstep)

theorem clean_c2a : CleanReachable c2a :=
  Relation.ReflTransGen.tail
    (Relation.ReflTransGen.tail Relation.ReflTransGen.refl
      (CleanStep.accept initState 0 rid1 (by decide)))
    (CleanStep.joined (acceptOp initState 0 rid1) 0 (by decide) (by decide) (by decide)
      (by decide))

theorem clean_c2b : CleanReachable c2b :=
  Relation.ReflTransGen.tail clean_c2a
    (CleanStep.register c2a 0 rid1 true c2b (by decide) (by decide) (by decide))

theorem clean_c2c : CleanReachable c2c :=
  Relation.ReflTransGen.tail clean_c2b
    (CleanStep.register c2b 0 "foo" true c2c (by decide) (by decide) (by decide))

theorem clean_cXb : CleanReachable cXb :=
  Relation.ReflTransGen.tail clean_c2a
    (CleanStep.register c2a 0 "alice" true cXb (by decide) (by decide) (by decide))

theorem clean_cXc : CleanReachable cXc :=
  Relation.ReflTransGen.tail clean_cXb
    (CleanStep.leave cXb 0 (by decide))

theorem clean_c4a : CleanReachable c4a :=
  Relation.ReflTransGen.tail
    (Relation.ReflTransGen.tail Relation.ReflTransGen.refl
      (CleanStep.accept initState 1 rid1 (by decide)))
    (CleanStep.joined (acceptOp initState 1 rid1) 1 (by decide) (by decide) (by decide)
      (by decide))

theorem clean_c4b : CleanReachable c4b :=
  Relation.ReflTransGen.tail clean_c4a
    (CleanStep.joinRoom c4a 1 "a" (by decide) (by decide))

theorem clean_c4c : CleanReachable c4c :=
  Relation.ReflTransGen.tail
    (Relation.ReflTransGen.tail clean_c4b
      (CleanStep.accept c4b 2 rid2 (by decide)))
    (CleanStep.joined (acceptOp c4b 2 rid2) 2 (by decide) (by decide) (by decide)
      (by decide))

theorem clean_c4d : CleanReachable c4d :=
  Relation.ReflTransGen.tail clean_c4c
    (CleanStep.joinRoom c4c 2 "b" (by decide) (by decide))

theorem reach_c4e : Reachable c4e :=
  Relation.ReflTransGen.tail (reachable_of_clean c4d clean_c4d)
    (Step.leaveRoomAny c4d 1 "b" (by decide) (by decide))

theorem registerAccept_ne_none (st1 : ServerState) (nick : String) (s : Nat)
    (o r : String)
    (ho : o ≠ "" → o ≠ nick → o ≠ r → lookupNick st1 o ≠ none) :
    registerAccept st1 nick s o r ≠ none := by
  unfold registerAccept
  split
  · rename_i hc
    cases hl : lookupNick st1 o with
    | none => exact absurd hl (ho hc.1 hc.2.1 hc.2.2)
    | some u => simp
  · simp

theorem impl_no_ub (st : ServerState) (s : Nat) (nick : String)
    (hpres : (getSess st s).nickname ≠ (getSess st s).remoteId →
      lookupNick st ((getSess st s).nickname) = some s) :
    tryRegisterNicknameImpl st nick s ≠ none := by
  unfold tryRegisterNicknameImpl
  dsimp only
  split
  · split
    · refine registerAccept_ne_none st nick s _ _ ?_
      intro _ _ hnr
      rw [hpres hnr]
      simp
    · split
      · refine registerAccept_ne_none (eraseNickKey st nick) nick s _ _ ?_
        intro _ hnn hnr
        rw [lookupNick_eraseNickKey_ne st _ nick hnn, hpres hnr]
        simp
      · split
        · refine registerAccept_ne_none st nick s _ _ ?_
          intro _ _ hnr
          rw [hpres hnr]
          simp
        · simp
  · simp

theorem reg_no_ub (st : ServerState) (s : Nat) (nick : String)
    (hpres : (getSess st s).nickname ≠ (getSess st s).remoteId →
      lookupNick st ((getSess st s).nickname) = some s) :
    registerNickname st nick s ≠ none := by
  unfold registerNickname
  cases hres : tryRegisterNicknameImpl st nick s with
  | none => exact absurd hres (impl_no_ub st s nick hpres)
  | some p =>
    obtain ⟨ok, st1⟩ := p
    cases ok <;> simp

theorem impl_ok_value (st st1 : ServerState) (s : Nat) (nick : String) (ok : Bool)
    (hna : s ∈ st.alive)
    (h : tryRegisterNicknameImpl st nick s = some (ok, st1)) :
    (ok = true ↔
      (lookupNick st nick = none ∨
        (∃ t, lookupNick st nick = some t ∧ t ∉ st.alive) ∨
        lookupNick st nick = some s)) := by
  unfold tryRegisterNicknameImpl at h
  rw [if_pos hna] at h
  dsimp only at h
  split at h
  · rename_i hlu
    have hok := (registerAccept_shape _ _ _ _ _ _ _ h).1
    subst hok
    simp [hlu]
  · rename_i t hlu
    split at h
    · rename_i htd
      have hok := (registerAccept_shape _ _ _ _ _ _ _ h).1
      subst hok
      exact ⟨fun _ => Or.inr (Or.inl ⟨t, hlu, htd⟩), fun _ => rfl⟩
    · rename_i htd
      split at h
      · rename_i hts
        subst hts
        have hok := (registerAccept_shape _ _ _ _ _ _ _ h).1
        subst hok
        simp [hlu]
      · rename_i hts
        simp only [Option.some.injEq, Prod.mk.injEq] at h
        obtain ⟨hok, -⟩ := h
        subst hok
        constructor
        · intro hc
          cases hc
        · rintro (hc | ⟨u, hu1, hu2⟩ | hc)
          · rw [hlu] at hc
            cases hc
          · rw [hlu] at hu1
            cases hu1
            exact absurd (not_not.mp htd) hu2
          · rw [hlu] at hc
            cases hc
            exact absurd rfl hts

theorem reg_ok_value (st st' : ServerState) (s : Nat) (nick : String) (ok : Bool)
    (hna : s ∈ st.alive)
    (h : registerNickname st nick s = some (ok, st')) :
    (ok = true ↔
      (lookupNick st nick = none ∨
        (∃ t, lookupNick st nick = some t ∧ t ∉ st.alive) ∨
        lookupNick st nick = some s)) := by
  unfold registerNickname at h
  split at h
  · exact absurd h (by simp)
  · rename_i ok1 st1 hp
    split at h
    · rename_i hok
      subst hok
      simp only [Option.some.injEq, Prod.mk.injEq, true_and] at h
      obtain ⟨hok2, -⟩ := h
      subst hok2
      exact impl_ok_value st st1 s nick true hna hp
    · rename_i hok
      simp only [Bool.not_eq_true] at hok
      subst hok
      simp only [Option.some.injEq, Prod.mk.injEq] at h
      obtain ⟨hok2, -⟩ := h
      subst hok2
      exact impl_ok_value st st1 s nick false hna hp

theorem registerAccept_old_removed (st1 st2 : ServerState) (nick : String) (s : Nat)
    (o r : String) (ok : Bool)
    (hcond : o ≠ "" ∧ o ≠ nick ∧ o ≠ r)
    (hpt : lookupNick st1 o = some s)
    (h : registerAccept st1 nick s o r = some (ok, st2)) :
    lookupNick st2 o = none := by
  unfold registerAccept at h
  rw [if_pos hcond, hpt] at h
  dsimp only at h
  rw [if_pos (Or.inl rfl)] at h
  simp only [Option.some.injEq, Prod.mk.injEq] at h
  obtain ⟨-, hst⟩ := h
  subst hst
  show alookup (aset (eraseNickKey st1 o).nicknames nick s) o = none
  rw [alookup_aset_ne _ o nick s hcond.2.1]
  exact alookup_aerase_self st1.nicknames o

theorem reg_old_removed (st st' : ServerState) (s : Nat) (nick : String)
    (h : registerNickname st nick s = some (true, st'))
    (hne0 : (getSess st s).nickname ≠ "")
    (hne1 : (getSess st s).nickname ≠ nick)
    (hne2 : (getSess st s).nickname ≠ (getSess st s).remoteId)
    (hpoint : lookupNick st ((getSess st s).nickname) = some s) :
    lookupNick st' ((getSess st s).nickname) = none := by
  unfold registerNickname at h
  split at h
  · exact absurd h (by simp)
  · rename_i ok1 st1 hp
    split at h
    · rename_i hok
      subst hok
      simp only [Option.some.injEq, Prod.mk.injEq, true_and] at h
      subst h
      show lookupNick st1 ((getSess st s).nickname) = none
      unfold tryRegisterNicknameImpl at hp
      split at hp
      · split at hp
        · exact registerAccept_old_removed _ _ nick s _ _ _ ⟨hne0, hne1, hne2⟩ hpoint hp
        · split at hp
          · refine registerAccept_old_removed _ _ nick s _ _ _ ⟨hne0, hne1, hne2⟩ ?_ hp
            rw [lookupNick_eraseNickKey_ne st _ nick hne1]
            exact hpoint
          · split at hp
            · exact registerAccept_old_removed _ _ nick s _ _ _ ⟨hne0, hne1, hne2⟩ hpoint hp
            · exact absurd hp (by simp)
      · exact absurd hp (by simp)
    · exact absurd h (by simp)

theorem leaveAll_nomem (st : ServerState) (s : Nat) (h : Inv st) (hs : s ∈ st.sessions) :
    ∀ r m0, lookupRoom (leaveAllRooms st s) r = some m0 → s ∉ m0 := by
  have hInv1 : Inv (leaveAllRooms st s) := inv_leaveAll st s h hs
  have hcur1 : (getSess (leaveAllRooms st s) s).currentRoom = "" :=
    leaveAll_curRoom st s h hs
  intro r m0 hl hmem
  have h2 := (hInv1.roomMem r m0 s hl hmem).2
  rw [hcur1] at h2
  rw [← h2, hInv1.roomKey] at hl
  cases hl

theorem leaveOp_red (st : ServerState) (s : Nat) : (leaveOp st s).2 =
    if (getSess st s).nickname ≠ "" ∧ (getSess st s).nickname ≠ (getSess st s).remoteId
    then { (unregisterNickname (leaveAllRooms st s) ((getSess st s).nickname)) with
      sessions :=
        (unregisterNickname (leaveAllRooms st s) ((getSess st s).nickname)).sessions.filter
          (fun t => !(t == s)) }
    else { (leaveAllRooms st s) with
      sessions := (leaveAllRooms st s).sessions.filter (fun t => !(t == s)) } := by
  unfold leaveOp
  dsimp only
  by_cases hbr : (getSess st s).nickname ≠ "" ∧
      (getSess st s).nickname ≠ (getSess st s).remoteId
  · rw [if_pos hbr, if_pos hbr]
  · rw [if_neg hbr, if_neg hbr]

theorem leaveOp_sessions (st : ServerState) (s : Nat) :
    (leaveOp st s).2.sessions = st.sessions.filter (fun t => !(t == s)) := by
  rw [leaveOp_red]
  split
  · show (unregisterNickname (leaveAllRooms st s) _).sessions.filter _ = _
    rw [sessions_unregister, leaveAll_sessions]
  · show (leaveAllRooms st s).sessions.filter _ = _
    rw [leaveAll_sessions]

theorem leaveOp_lookupRoom (st : ServerState) (s : Nat) (r : String) :
    lookupRoom (leaveOp st s).2 r = lookupRoom (leaveAllRooms st s) r := by
  rw [leaveOp_red]
  split
  · show lookupRoom (unregisterNickname (leaveAllRooms st s) _) r = _
    rw [lookupRoom_unregister]
  · rfl

theorem leaveOp_fst (st : ServerState) (s : Nat) :
    (leaveOp st s).1 = (decide (s ∈ st.sessions) &&
      decide ((getSess st s).nickname ≠ "") &&
      decide ((getSess st s).nickname ≠ (getSess st s).remoteId)) := by
  unfold leaveOp
  dsimp only
  congr 2
  split
  · rw [sessions_unregister, leaveAll_sessions]
  · rw [leaveAll_sessions]

/-- Claim C1: a global broadcast delivers to every registered session except
the sender and to no other session; a room broadcast delivers to every (live)
member of the room except the sender; when the sender is absent (a system
message), every registered session, respectively every member, receives the
message. -/
theorem c1_broadcast_fanout (st : ServerState) (sender t : Nat) (members : List Nat)
    (hmem : ∀ u, u ∈ members → u ∈ st.alive) :
    (t ∈ broadcastRecipients st (some sender) ↔ t ∈ st.sessions ∧ t ≠ sender) ∧
    (t ∈ broadcastRecipients st none ↔ t ∈ st.sessions) ∧
    (t ∈ roomBroadcastRecipients st.alive members (some sender) ↔
      t ∈ members ∧ t ≠ sender) ∧
    (t ∈ roomBroadcastRecipients st.alive members none ↔ t ∈ members) := by
  refine ⟨?_, ?_, ?_, ?_⟩
  · simp [broadcastRecipients, List.mem_filter]
  · simp [broadcastRecipients, List.mem_filter]
  · simp only [roomBroadcastRecipients, List.mem_filter, Bool.and_eq_true,
      decide_eq_true_eq, List.elem_iff, ne_eq, Option.some.injEq]
    constructor
    · rintro ⟨h1, -, h3⟩
      exact ⟨h1, fun he => h3 (he ▸ rfl)⟩
    · rintro ⟨h1, h2⟩
      exact ⟨h1, hmem t h1, fun he => h2 he⟩
  · simp only [roomBroadcastRecipients, List.mem_filter, Bool.and_eq_true,
      decide_eq_true_eq, List.elem_iff, ne_eq]
    constructor
    · rintro ⟨h1, -⟩
      exact h1
    · intro h1
      exact ⟨h1, hmem t h1, by simp⟩

/-- Witness for claim C1 at a concrete state. -/
theorem c1_broadcast_fanout_witness :
    (∀ u, u ∈ ([1, 2] : List Nat) → u ∈ w1State.alive) ∧
    ((3 ∈ broadcastRecipients w1State (some 1) ↔ 3 ∈ w1State.sessions ∧ 3 ≠ 1) ∧
     (3 ∈ broadcastRecipients w1State none ↔ 3 ∈ w1State.sessions) ∧
     (3 ∈ roomBroadcastRecipients w1State.alive [1, 2] (some 1) ↔
       3 ∈ ([1, 2] : List Nat) ∧ 3 ≠ 1) ∧
     (3 ∈ roomBroadcastRecipients w1State.alive [1, 2] none ↔
       3 ∈ ([1, 2] : List Nat))) :=
  ⟨by decide, c1_broadcast_fanout w1State 1 3 [1, 2] (by decide)⟩

/-- Claim C4 (counterexample): in the reachable state `c4e` (session 1 joined
room "a", session 2 joined room "b", then session 1 invoked the synchronous
leave_room on room "b" via the WebSocket /leave command), session 1 is still
a member of room "a" but its current_room has been cleared, refuting the
claimed invariant that current_room equals R iff the session is a member of
Room(R). -/
theorem c4_room_invariant_counterexample :
    Reachable c4e ∧
    1 ∈ c4e.sessions ∧
    1 ∈ membersOf c4e "a" ∧
    (getSess c4e 1).currentRoom ≠ "a" ∧
    (getSess c4e 1).currentRoom = "" :=
  ⟨reach_c4e, by decide, by decide, by decide, by decide⟩

/-- Claim C4 (amended): in every state reachable under the disciplined
lifecycle, where leave_room is only invoked through leave_room_async (whose
guard requires the room to be the current room of the session), the claimed
invariants hold: current_room equals a non-empty R iff the session is a
member of Room(R); a session is a member of at most one room; and every room
present in the Room Map has a non-empty member set. -/
theorem c4_room_invariant_amended (st : ServerState) (h : CleanReachable st) :
    (∀ s r, r ≠ "" → ((getSess st s).currentRoom = r ↔ s ∈ membersOf st r)) ∧
    (∀ s r1 r2 m1 m2, lookupRoom st r1 = some m1 → lookupRoom st r2 = some m2 →
      s ∈ m1 → s ∈ m2 → r1 = r2) ∧
    (∀ r m, lookupRoom st r = some m → m ≠ []) := by
  have hI := inv_of_cleanReachable st h
  refine ⟨?_, ?_, hI.roomNE⟩
  · intro s r hr
    constructor
    · intro hcr
      by_cases hs : s ∈ st.sessions
      · obtain ⟨m, hm1, hm2⟩ := hI.curRoomMem s hs (by rw [hcr]; exact hr)
        rw [hcr] at hm1
        unfold membersOf
        rw [hm1]
        exact hm2
      · rw [hI.curRoomOut s hs] at hcr
        exact absurd hcr.symm hr
    · intro hmem
      unfold membersOf at hmem
      cases hm : lookupRoom st r with
      | none =>
        rw [hm] at hmem
        cases hmem
      | some m =>
        rw [hm] at hmem
        exact (hI.roomMem r m s hm hmem).2
  · intro s r1 r2 m1 m2 h1 h2 hs1 hs2
    have e1 := (hI.roomMem r1 m1 s h1 hs1).2
    have e2 := (hI.roomMem r2 m2 s h2 hs2).2
    rw [← e1, ← e2]

/-- Witness for the amended claim C4 at the reachable state `c4d`. -/
theorem c4_room_invariant_amended_witness :
    CleanReachable c4d ∧ ("a" : String) ≠ "" ∧
    ((getSess c4d 1).currentRoom = "a" ↔ 1 ∈ membersOf c4d "a") :=
  ⟨clean_c4d, by decide,
    (c4_room_invariant_amended c4d clean_c4d).1 1 "a" (by decide)⟩

/-- Claim C5 (counterexample): in the reachable state `c4d` the room "b"
exists with member list [2]; session 1 is not a member of "b", yet the
synchronous leave_room("b", 1) reports success, refuting the claim that
leave_room fails when the session is not a member of the room. -/
theorem c5_leave_room_counterexample :
    CleanReachable c4d ∧
    lookupRoom c4d "b" = some [2] ∧
    1 ∉ membersOf c4d "b" ∧
    (leaveRoomOp c4d "b" 1).1 = true :=
  ⟨clean_c4d, by decide, by decide, by decide⟩

/-- Claim C5 (amended): the synchronous leave_room fails iff the room is
absent from the Room Map (membership of the session is not checked); on
success the session is removed from the room if present, its current_room is
cleared, and the room is destroyed iff its member list became empty; the
asynchronous entry point leave_room_async additionally rejects the call when
the room is not the current room of the session. -/
theorem c5_leave_room_amended (st : ServerState) (room : String) (s : Nat) :
    ((leaveRoomOp st room s).1 = false ↔ lookupRoom st room = none) ∧
    (∀ m, lookupRoom st room = some m →
      (getSess (leaveRoomOp st room s).2 s).currentRoom = "" ∧
      s ∉ membersOf (leaveRoomOp st room s).2 room ∧
      (removeParticipant st.alive m s = [] →
        lookupRoom (leaveRoomOp st room s).2 room = none) ∧
      (removeParticipant st.alive m s ≠ [] →
        lookupRoom (leaveRoomOp st room s).2 room =
          some (removeParticipant st.alive m s))) ∧
    ((getSess st s).currentRoom ≠ room → (leaveRoomAsync st room s).1 = false) := by
  refine ⟨?_, ?_, ?_⟩
  · unfold leaveRoomOp
    cases hm : lookupRoom st room with
    | none => simp
    | some m => simp
  · intro m hm
    have hred : (leaveRoomOp st room s).2 =
        setCurRoom (if removeParticipant st.alive m s = [] then eraseRoom st room
          else setRoomMembers st room (removeParticipant st.alive m s)) s "" := by
      unfold leaveRoomOp
      rw [hm]
    rw [hred]
    refine ⟨?_, ?_, ?_, ?_⟩
    · rw [getSess_setCurRoom_self]
    · unfold membersOf
      by_cases hmp : removeParticipant st.alive m s = []
      · rw [if_pos hmp]
        rw [show lookupRoom (setCurRoom (eraseRoom st room) s "") room =
          lookupRoom (eraseRoom st room) room from rfl, lookupRoom_eraseRoom_self]
        simp
      · rw [if_neg hmp]
        rw [show lookupRoom (setCurRoom (setRoomMembers st room
            (removeParticipant st.alive m s)) s "") room =
          lookupRoom (setRoomMembers st room (removeParticipant st.alive m s)) room
          from rfl, lookupRoom_setRoomMembers_self]
        intro hmem
        obtain ⟨-, hss, -⟩ := (mem_removeParticipant st.alive m s s).mp hmem
        exact hss rfl
    · intro hmp
      rw [if_pos hmp]
      exact lookupRoom_eraseRoom_self st room
    · intro hmp
      rw [if_neg hmp]
      exact lookupRoom_setRoomMembers_self st room _
  · intro hcur
    unfold leaveRoomAsync
    rw [if_pos (Or.inr hcur)]

/-- Witness for the amended claim C5 at concrete inputs. -/
theorem c5_leave_room_amended_witness :
    lookupRoom c4d "a" = some [1] ∧
    ((getSess (leaveRoomOp c4d "a" 1).2 1).currentRoom = "" ∧
      1 ∉ membersOf (leaveRoomOp c4d "a" 1).2 "a" ∧
      (removeParticipant c4d.alive [1] 1 = [] →
        lookupRoom (leaveRoomOp c4d "a" 1).2 "a" = none) ∧
      (removeParticipant c4d.alive [1] 1 ≠ [] →
        lookupRoom (leaveRoomOp c4d "a" 1).2 "a" =
          some (removeParticipant c4d.alive [1] 1))) ∧
    (getSess c4d 2).currentRoom ≠ "a" ∧
    (leaveRoomAsync c4d "a" 2).1 = false :=
  ⟨by decide, (c5_leave_room_amended c4d "a" 1).2.1 [1] (by decide), by decide,
    (c5_leave_room_amended c4d "a" 2).2.2 (by decide)⟩

/-- Claim C6: the room capacity limit described by the specification does not
exist in the implementation: join_room reports success for every state, and
a room that already holds 100 members (the specified default capacity) still
accepts the next session instead of failing with a capacity error. -/
theorem c6_capacity_missing :
    (∀ (st : ServerState) (room : String) (s : Nat), (joinRoomOp st room s).1 = true) ∧
    (membersOf fullRoomState "big").length = 100 ∧
    (joinRoomOp fullRoomState "big" 100).1 = true ∧
    (100 : Nat) ∈ membersOf (joinRoomOp fullRoomState "big" 100).2 "big" ∧
    (membersOf (joinRoomOp fullRoomState "big" 100).2 "big").length = 101 := by
  refine ⟨fun st room s => rfl, by decide, rfl, by decide, by decide⟩

/-- Claim C7: the five welcome banner messages are queued in the specified
order, but ChatSession::deliver appends one more CRLF to each already
CRLF-terminated message, so every banner line leaves the wire terminated by
two CRLF sequences instead of exactly one. -/
theorem c7_welcome_double_crlf :
    chatSessionWelcomeWire "1.2.3.4:5" =
      [ "Welcome to the CherryRecorder Chat Server!\r\n\r\n"
      , "Your temporary ID is: 1.2.3.4:5\r\n\r\n"
      , "Please set your nickname using /nick <nickname>\r\n\r\n"
      , "Enter /help for a list of commands.\r\n\r\n"
      , "Enter /join <roomname> to join or create a room.\r\n\r\n" ] ∧
    chatSessionWelcomeWire "1.2.3.4:5" ≠ chatSessionWelcomeMsgs "1.2.3.4:5" := by
  constructor
  · decide
  · decide

/-- Claim C9 (counterexample): read_last_lines does not skip blank lines:
on the file ["a", "", "b"] with limit 2 it returns ["", "b"], while the last
two non-blank lines in natural order are ["a", "b"]. -/
theorem c9_history_counterexample :
    readLastLines ["a", "", "b"] 2 = ["", "b"] ∧
    specLastNonBlankLines ["a", "", "b"] 2 = ["a", "b"] ∧
    readLastLines ["a", "", "b"] 2 ≠ specLastNonBlankLines ["a", "", "b"] 2 := by
  refine ⟨by decide, by decide, by decide⟩

/-- Claim C9 (amended): reading with limit N returns all lines (blank lines
included) when N is zero or at least the line count, and otherwise the last
N lines of the file in natural order (a suffix of length N); a missing file
yields an empty list rather than an error. -/
theorem c9_history_amended (lines : List String) (limit : Nat) :
    (limit = 0 ∨ lines.length ≤ limit → readLastLines lines limit = lines) ∧
    (0 < limit → limit < lines.length →
      readLastLines lines limit = lines.drop (lines.length - limit) ∧
      (readLastLines lines limit).length = limit ∧
      readLastLines lines limit <:+ lines) ∧
    loadHistoryStream none limit = [] ∧
    loadHistoryStream (some lines) limit = readLastLines lines limit := by
  refine ⟨?_, ?_, rfl, rfl⟩
  · intro h
    unfold readLastLines
    rw [if_pos h]
  · intro h1 h2
    have hcond : ¬(limit = 0 ∨ lines.length ≤ limit) := by omega
    unfold readLastLines
    rw [if_neg hcond]
    refine ⟨rfl, ?_, List.drop_suffix _ _⟩
    rw [List.length_drop]
    omega

/-- Witness for the amended claim C9 at concrete inputs. -/
theorem c9_history_amended_witness :
    (0 < 2 ∧ 2 < 4) ∧
    readLastLines ["w", "x", "y", "z"] 2 = ["y", "z"] ∧
    readLastLines ["w", "x", "y", "z"] 2 <:+ ["w", "x", "y", "z"] := by
  refine ⟨by decide, ?_, ?_⟩
  · exact ((c9_history_amended ["w", "x", "y", "z"] 2).2.1 (by decide)
      (by decide)).1.trans (by decide)
  · exact ((c9_history_amended ["w", "x", "y", "z"] 2).2.1 (by decide)
      (by decide)).2.2

/-- Claim C2 (counterexample): in the reachable state `c2b` session 0 has
registered its own remote id "r:1" as its nickname, so the index maps "r:1"
to session 0.  Registering the different nickname "foo" then succeeds, yet
the previous nickname entry ("r:1" mapping to session 0) is not removed from
the index, because the eviction step skips a previous nickname equal to the
remote id.  This refutes the clause that on success any previous different
nickname of the session that still pointed at it is removed. -/
theorem c2_register_counterexample :
    CleanReachable c2b ∧
    (getSess c2b 0).nickname = rid1 ∧
    (getSess c2b 0).remoteId = rid1 ∧
    lookupNick c2b rid1 = some 0 ∧
    rid1 ≠ "foo" ∧
    registerNickname c2b "foo" 0 = some (true, c2c) ∧
    lookupNick c2c rid1 = some 0 :=
  ⟨clean_c2b, by decide, by decide, by decide, by decide, by decide, by decide⟩

/-- Claim C2 (amended): for a session still in the Session Set of a
disciplined-lifecycle reachable state, try_register_nickname succeeds iff
the nickname is absent, held by an expired session, or held by the session
itself, and it fails iff the nickname is held by a live different session;
on success the index maps the nickname to the session, re-registration is
idempotent, and a previous different nickname is removed from the index
provided it also differs from the remote id of the session. -/
theorem c2_register_amended (st : ServerState) (s : Nat) (nick : String)
    (h : CleanReachable st) (hm : s ∈ st.sessions) :
    ((registerNickname st nick s).map Prod.fst = some true ↔
      (lookupNick st nick = none ∨
        (∃ t, lookupNick st nick = some t ∧ t ∉ st.alive) ∨
        lookupNick st nick = some s)) ∧
    ((registerNickname st nick s).map Prod.fst = some false ↔
      (∃ t, lookupNick st nick = some t ∧ t ∈ st.alive ∧ t ≠ s)) ∧
    (∀ st', registerNickname st nick s = some (true, st') →
      lookupNick st' nick = some s ∧
      (registerNickname st' nick s).map Prod.fst = some true ∧
      ((getSess st s).nickname ≠ nick →
        (getSess st s).nickname ≠ (getSess st s).remoteId →
        lookupNick st' ((getSess st s).nickname) = none)) := by
  have hI := inv_of_cleanReachable st h
  have hna : s ∈ st.alive := hI.sessAlive s hm
  have hpres := hI.nickOfSess s hm
  have hnnone : registerNickname st nick s ≠ none := reg_no_ub st s nick hpres
  cases hres : registerNickname st nick s with
  | none => exact absurd hres hnnone
  | some p =>
    obtain ⟨ok, st1⟩ := p
    have hval := reg_ok_value st st1 s nick ok hna hres
    refine ⟨?_, ?_, ?_⟩
    · simp only [Option.map_some', Option.some.injEq]
      exact hval
    · simp only [Option.map_some', Option.some.injEq]
      cases hlu : lookupNick st nick with
      | none =>
        have hok : ok = true := hval.mpr (Or.inl hlu)
        subst hok
        constructor
        · intro hc
          cases hc
        · rintro ⟨t, ht, -⟩
          cases ht
      | some t =>
        by_cases htd : t ∈ st.alive
        · by_cases hts : t = s
          · subst hts
            have hok : ok = true := hval.mpr (Or.inr (Or.inr hlu))
            subst hok
            constructor
            · intro hc
              cases hc
            · rintro ⟨u, hu1, -, hu3⟩
              cases hu1
              exact absurd rfl hu3
          · have hok : ok = false := by
              cases ok with
              | false => rfl
              | true =>
                rcases hval.mp rfl with hc | ⟨u, hu1, hu2⟩ | hc
                · rw [hlu] at hc
                  cases hc
                · rw [hlu] at hu1
                  cases hu1
                  exact absurd htd hu2
                · rw [hlu] at hc
                  cases hc
                  exact absurd rfl hts
            subst hok
            exact ⟨fun _ => ⟨t, rfl, htd, hts⟩, fun _ => rfl⟩
        · have hok : ok = true := hval.mpr (Or.inr (Or.inl ⟨t, hlu, htd⟩))
          subst hok
          constructor
          · intro hc
            cases hc
          · rintro ⟨u, hu1, hu2, -⟩
            cases hu1
            exact absurd hu2 htd
    · intro st' h'
      have h2 : registerNickname st nick s = some (true, st') := hres.trans h'
      obtain ⟨hal, -, -, hgs, -, hlu'⟩ := reg_shape st st' nick s h2
      have hna' : s ∈ st'.alive := by rw [hal]; exact hna
      have hnick' : (getSess st' s).nickname = nick := by rw [hgs]
      have hpres' : (getSess st' s).nickname ≠ (getSess st' s).remoteId →
          lookupNick st' ((getSess st' s).nickname) = some s := by
        intro _
        rw [hnick']
        exact hlu'
      refine ⟨hlu', ?_, ?_⟩
      · have hnn2 : registerNickname st' nick s ≠ none := reg_no_ub st' s nick hpres'
        cases hres2 : registerNickname st' nick s with
        | none => exact absurd hres2 hnn2
        | some p2 =>
          obtain ⟨ok2, st2⟩ := p2
          have hval2 := reg_ok_value st' st2 s nick ok2 hna' hres2
          have hok2 : ok2 = true := hval2.mpr (Or.inr (Or.inr hlu'))
          subst hok2
          simp
      · intro hne1 hne2
        have hne0 : (getSess st s).nickname ≠ "" := by
          rcases hI.nickNE s hm with h0 | h0
          · exact h0
          · exact absurd h0 hne2
        exact reg_old_removed st st' s nick h2 hne0 hne1 hne2 (hpres hne2)

/-- Witness for the amended claim C2 at a concrete reachable state. -/
theorem c2_register_amended_witness :
    CleanReachable c2a ∧ 0 ∈ c2a.sessions ∧
    ((registerNickname c2a "alice" 0).map Prod.fst = some true ↔
      (lookupNick c2a "alice" = none ∨
        (∃ t, lookupNick c2a "alice" = some t ∧ t ∉ c2a.alive) ∨
        lookupNick c2a "alice" = some 0)) :=
  ⟨clean_c2a, by decide, (c2_register_amended c2a 0 "alice" clean_c2a (by decide)).1⟩

/-- Claim C3 (counterexample): in the reachable state `c2b` session 0 is
registered and the index maps its nickname (equal to its remote id "r:1")
to it.  After leave the session is gone from the Session Set, yet the index
entry still maps "r:1" to session 0: leave skips unregistration when the
nickname equals the remote id, so the session is not removed from the
Nickname Index as the claim states. -/
theorem c3_leave_counterexample :
    CleanReachable c2b ∧
    0 ∈ c2b.sessions ∧
    lookupNick c2b rid1 = some 0 ∧
    (getSess c2b 0).nickname = rid1 ∧
    0 ∉ c3post.sessions ∧
    lookupNick c3post rid1 = some 0 ∧
    (leaveOp c2b 0).1 = false :=
  ⟨clean_c2b, by decide, by decide, by decide, by decide, by decide, by decide⟩

/-- Claim C3 (amended): leave never fails; it removes the session from the
Session Set and from its room, removes the index entry for its nickname
whenever that nickname differs from the remote id (an entry keyed by the
remote id itself survives as a stale entry), and broadcasts the user-left
notice iff the session had a user-assigned nickname. -/
theorem c3_leave_amended (st : ServerState) (s : Nat)
    (h : CleanReachable st) (hs : s ∈ st.sessions) :
    s ∉ (leaveOp st s).2.sessions ∧
    (∀ t, t ≠ s → (t ∈ (leaveOp st s).2.sessions ↔ t ∈ st.sessions)) ∧
    (∀ r m, lookupRoom (leaveOp st s).2 r = some m → s ∉ m) ∧
    ((getSess st s).nickname ≠ (getSess st s).remoteId →
      lookupNick (leaveOp st s).2 ((getSess st s).nickname) = none) ∧
    ((leaveOp st s).1 = true ↔
      (getSess st s).nickname ≠ (getSess st s).remoteId) := by
  have hI := inv_of_cleanReachable st h
  refine ⟨?_, ?_, ?_, ?_, ?_⟩
  · rw [leaveOp_sessions]
    intro hmem
    exact ((mem_filter_ne st.sessions s s).mp hmem).2 rfl
  · intro t ht
    rw [leaveOp_sessions]
    exact ⟨fun hmem => ((mem_filter_ne st.sessions s t).mp hmem).1,
      fun hmem => (mem_filter_ne st.sessions s t).mpr ⟨hmem, ht⟩⟩
  · intro r m hl
    rw [leaveOp_lookupRoom] at hl
    exact leaveAll_nomem st s hI hs r m hl
  · intro hnr
    have hne0 : (getSess st s).nickname ≠ "" := by
      rcases hI.nickNE s hs with h0 | h0
      · exact h0
      · exact absurd h0 hnr
    rw [leaveOp_red, if_pos ⟨hne0, hnr⟩]
    show lookupNick (unregisterNickname (leaveAllRooms st s)
      ((getSess st s).nickname)) ((getSess st s).nickname) = none
    unfold unregisterNickname
    rw [if_neg hne0]
    exact lookupNick_eraseNickKey_self _ _
  · rw [leaveOp_fst]
    simp only [Bool.and_eq_true, decide_eq_true_eq]
    constructor
    · rintro ⟨-, hne⟩
      exact hne
    · intro hnr
      have hne0 : (getSess st s).nickname ≠ "" := by
        rcases hI.nickNE s hs with h0 | h0
        · exact h0
        · exact absurd h0 hnr
      exact ⟨⟨hs, hne0⟩, hnr⟩

/-- Witness for the amended claim C3 at a concrete reachable state. -/
theorem c3_leave_amended_witness :
    CleanReachable cXb ∧ 0 ∈ cXb.sessions ∧
    0 ∉ (leaveOp cXb 0).2.sessions ∧
    ((getSess cXb 0).nickname ≠ (getSess cXb 0).remoteId →
      lookupNick (leaveOp cXb 0).2 ((getSess cXb 0).nickname) = none) ∧
    ((leaveOp cXb 0).1 = true ↔
      (getSess cXb 0).nickname ≠ (getSess cXb 0).remoteId) := by
  have h := c3_leave_amended cXb 0 clean_cXb (by decide)
  exact ⟨clean_cXb, by decide, h.1, h.2.2.2.1, h.2.2.2.2⟩

/-- Claim C8 (counterexample): an upstream transport failure does not reach
the client as status 500: requestGooglePlacesApi catches the exception and
returns a plain object with one "error" field, which handleNearbySearch
does not recognize as an error marker, so the client receives status 200. -/
theorem c8_upstream_error_counterexample :
    handleNearbySearch (.transportError "connect failed") =
      (200, serializeJson (.obj [("error", .str "connect failed")])) ∧
    (handleNearbySearch (.transportError "connect failed")).1 ≠ 500 :=
  ⟨rfl, by decide⟩

/-- Claim C8 (amended): a parsed upstream non-2xx response reaches the
client with the upstream status code but with the re-serialized upstream
body wrapped in a JSON object under the key "error" (not verbatim), and an
upstream transport failure reaches the client as status 200 with a JSON
object holding the short reason string (not as status 500). -/
theorem c8_upstream_error_amended (status : Nat) (v : JsonVal)
    (rawBody reason : String) (hst : status < 200 ∨ 300 ≤ status) :
    handleNearbySearch (.response status rawBody (some v)) =
      createErrorResponse status (serializeJson v) ∧
    (handleNearbySearch (.response status rawBody (some v))).1 = status ∧
    handleNearbySearch (.transportError reason) =
      (200, serializeJson (.obj [("error", .str reason)])) := by
  have hcond : ¬(200 ≤ status ∧ status < 300) := by omega
  have h1 : requestGooglePlacesApi (.response status rawBody (some v)) =
      .errorMarker status (serializeJson v) := by
    unfold requestGooglePlacesApi
    dsimp only
    rw [if_neg hcond]
  have h2 : handleNearbySearch (.response status rawBody (some v)) =
      createErrorResponse status (serializeJson v) := by
    unfold handleNearbySearch
    rw [h1]
  exact ⟨h2, by rw [h2]; rfl, rfl⟩

/-- Witness for the amended claim C8 at concrete inputs. -/
theorem c8_upstream_error_amended_witness :
    ((403 : Nat) < 200 ∨ (300 : Nat) ≤ 403) ∧
    handleNearbySearch (.response 403 "raw" (some (.obj [("error", .str "denied")]))) =
      createErrorResponse 403 (serializeJson (.obj [("error", .str "denied")])) ∧
    (handleNearbySearch
      (.response 403 "raw" (some (.obj [("error", .str "denied")])))).1 = 403 ∧
    handleNearbySearch (.transportError "dns failure") =
      (200, serializeJson (.obj [("error", .str "dns failure")])) := by
  have h := c8_upstream_error_amended 403 (.obj [("error", .str "denied")])
    "raw" "dns failure" (Or.inr (by decide))
  exact ⟨Or.inr (by decide), h.1, h.2.1, h.2.2⟩

/-- Claim C10 (counterexample): the state `cXc` is reachable (session 0
registered the nickname "alice" and then left; the leave removed "alice"
from the index while the session object stayed alive and kept its local
nickname - the WebSocket write-error path makes exactly this sequence
possible while the client keeps sending commands).  A subsequent accepted
registration of "bob" for session 0 finds its previous nickname "alice"
absent, although it differs from both the requested nickname and the remote
id, and the eviction step dereferences the past-the-end iterator (modelled
as the result `none`). -/
theorem c10_eviction_counterexample :
    CleanReachable cXc ∧
    0 ∈ cXc.alive ∧
    (getSess cXc 0).nickname = "alice" ∧
    (getSess cXc 0).remoteId = rid1 ∧
    ("alice" : String) ≠ "bob" ∧
    ("alice" : String) ≠ rid1 ∧
    lookupNick cXc "bob" = none ∧
    lookupNick cXc "alice" = none ∧
    tryRegisterNicknameImpl cXc "bob" 0 = none :=
  ⟨clean_cXc, by decide, by decide, by decide, by decide, by decide, by decide,
    by decide, by decide⟩

/-- Claim C10 (amended): for a session still present in the Session Set of a
disciplined-lifecycle reachable state, a previous nickname differing from
the remote id is always present in the Nickname Index, and consequently
try_register_nickname never dereferences the past-the-end iterator. -/
theorem c10_eviction_amended (st : ServerState) (s : Nat)
    (h : CleanReachable st) (hs : s ∈ st.sessions) :
    ((getSess st s).nickname ≠ (getSess st s).remoteId →
      lookupNick st ((getSess st s).nickname) = some s) ∧
    (∀ nick, tryRegisterNicknameImpl st nick s ≠ none) := by
  have hI := inv_of_cleanReachable st h
  exact ⟨hI.nickOfSess s hs, fun nick => impl_no_ub st s nick (hI.nickOfSess s hs)⟩

/-- Witness for the amended claim C10 at a concrete reachable state. -/
theorem c10_eviction_amended_witness :
    CleanReachable c2c ∧ 0 ∈ c2c.sessions ∧
    lookupNick c2c ((getSess c2c 0).nickname) = some 0 ∧
    tryRegisterNicknameImpl c2c "bar" 0 ≠ none := by
  have h := c10_eviction_amended c2c 0 clean_c2c (by decide)
  exact ⟨clean_c2c, by decide, h.1 (by decide), h.2 "bar"⟩

end CherryRecorder
